import Mathlib

set_option maxRecDepth 2000

/- Batteries marks the `Rat` field operations `@[irreducible]`; restore the
default reducibility so that concrete runs of the embedded engine can be
evaluated by `decide`. -/
attribute [local semireducible] Rat.add Rat.sub Rat.mul Rat.inv Rat.ofScientific

/-
  Verification development for the BinanceStrateger MACD backtest core.

  Shallow embedding of:
    - src/macd_strategy/core/config_template.py        (constants, leverage brackets)
    - src/macd_strategy/core/leverage_calculator.py    (LeverageCalculator)
    - src/macd_strategy/indicators/technical_indicators.py (SignalAnalyzer)
    - src/macd_strategy/backtest/backtest_engine.py    (BacktestEngine.execute_backtest)

  Prices and money amounts are embedded as exact rationals (the Python code
  computes with IEEE floats / numpy float64; the algebraic identities verified
  here are exact in the source expressions).  Division is Lean total rational
  division; places where the Python code would divide by zero are discussed at
  the corresponding claims (the code contains no zero-divisor guard).
  Timestamps are naturals.
-/

namespace MacdBacktest

/-- One row of `config.BINANCE_LEVERAGE_BRACKETS`. -/
structure Bracket where
  notionalMin : ℚ
  notionalMax : ℚ
  maxLeverage : ℕ
  maintenanceMarginRate : ℚ
  maintenanceAmount : ℚ
deriving DecidableEq

/-- The 12-level ETHUSDT bracket table from `config_template.py`. -/
def BINANCE_LEVERAGE_BRACKETS : List Bracket :=
  [ ⟨0, 50000, 125, 4/1000, 0⟩,
    ⟨50000, 600000, 100, 5/1000, 50⟩,
    ⟨600000, 3000000, 75, 65/10000, 950⟩,
    ⟨3000000, 12000000, 50, 1/100, 11450⟩,
    ⟨12000000, 50000000, 25, 2/100, 131450⟩,
    ⟨50000000, 65000000, 20, 25/1000, 381450⟩,
    ⟨65000000, 150000000, 10, 5/100, 2006450⟩,
    ⟨150000000, 320000000, 5, 10/100, 9506450⟩,
    ⟨320000000, 400000000, 4, 125/1000, 17506450⟩,
    ⟨400000000, 530000000, 3, 15/100, 27506450⟩,
    ⟨530000000, 800000000, 2, 25/100, 80506450⟩,
    ⟨800000000, 1200000000, 1, 50/100, 280506450⟩ ]

/-- Constant `config.MIN_CONSECUTIVE_BARS`. -/
def MIN_CONSECUTIVE_BARS : ℕ := 4

/-- Constant `config.STOP_LOSS_MULTIPLIER`. -/
def STOP_LOSS_MULTIPLIER : ℚ := 3/2

/-- Constant `config.RISK_REWARD_RATIO` (= 1.2). -/
def RISK_REWARD_RATIO : ℚ := 6/5

/-- Constant `config.POSITION_SIZE` (= 0.05, position size fraction of capital). -/
def POSITION_SIZE : ℚ := 1/20

/-- Constant `config.LEVERAGE` (desired leverage). -/
def LEVERAGE : ℕ := 50

/-- Embeds `LeverageCalculator.get_leverage_bracket`: first bracket whose
`[notional_min, notional_max)` range contains the value, else the last bracket. -/
def get_leverage_bracket (notional_value : ℚ) : Bracket :=
  match BINANCE_LEVERAGE_BRACKETS.find?
      (fun b => decide (b.notionalMin ≤ notional_value) && decide (notional_value < b.notionalMax)) with
  | some b => b
  | none => BINANCE_LEVERAGE_BRACKETS.getLastD ⟨0, 0, 1, 0, 0⟩

/-- Embeds `LeverageCalculator.calculate_max_leverage`. -/
def calculate_max_leverage (notional_value : ℚ) : ℕ :=
  (get_leverage_bracket notional_value).maxLeverage

/-- Embeds `LeverageCalculator.calculate_maintenance_margin_rate`. -/
def calculate_maintenance_margin_rate (notional_value : ℚ) : ℚ :=
  (get_leverage_bracket notional_value).maintenanceMarginRate

/-- Embeds `LeverageCalculator.calculate_optimal_leverage`. -/
def calculate_optimal_leverage (desired_leverage : ℕ) (notional_value : ℚ) : ℕ :=
  min desired_leverage (calculate_max_leverage notional_value)

/-- Result dictionary of `LeverageCalculator.calculate_position_details`. -/
structure PositionDetails where
  margin_used : ℚ
  actual_leverage : ℕ
  desired_leverage : ℕ
  actual_notional : ℚ
  position_quantity : ℚ
  maintenance_margin_rate : ℚ
  maintenance_margin : ℚ
  leverage_bracket : Bracket
  leverage_limited : Bool
deriving DecidableEq

/-- Embeds `LeverageCalculator.calculate_position_details`.  The Python parameter
`position_size_ratio` is called `sizeFrac` here.  `position_quantity` is
`actual_notional / entry_price` with no zero-divisor guard in the source
(numpy float64 division yields `inf` at `entry_price = 0`; here rational
division is total). -/
def calculate_position_details (capital sizeFrac : ℚ) (desired_leverage : ℕ)
    (entry_price : ℚ) : PositionDetails :=
  let margin_used := capital * sizeFrac
  let initial_notional := margin_used * (desired_leverage : ℚ)
  let actual_leverage := calculate_optimal_leverage desired_leverage initial_notional
  let actual_notional := margin_used * (actual_leverage : ℚ)
  let position_quantity := actual_notional / entry_price
  let bracket := get_leverage_bracket actual_notional
  { margin_used := margin_used
    actual_leverage := actual_leverage
    desired_leverage := desired_leverage
    actual_notional := actual_notional
    position_quantity := position_quantity
    maintenance_margin_rate := bracket.maintenanceMarginRate
    maintenance_margin := actual_notional * bracket.maintenanceMarginRate - bracket.maintenanceAmount
    leverage_bracket := bracket
    leverage_limited := decide (actual_leverage < desired_leverage) }

/-! ## Signal analyzer (`SignalAnalyzer` in technical_indicators.py) -/

/-- One row of the 1h indicator-annotated series: timestamp, `macd_histogram`, `atr`. -/
structure Row1h where
  time : ℕ
  hist : ℚ
  atr : ℚ
deriving DecidableEq

/-- One row of the 4h indicator-annotated series: timestamp and `macd_histogram`. -/
structure Row4h where
  time : ℕ
  hist : ℚ
deriving DecidableEq

/-- Diagnostic recorded in the analyzer result dictionary
(`details.error` / `details.stop_reason` / `details.signal_confirmed`). -/
inductive SigDiag where
  | insufficient_data
  | not_first_flip
  | not_enough_run
  | slow_wrong_sign
  | confirmed
deriving DecidableEq

/-- Analyzer result: `signal`, `atr` (set only on firing), diagnostic. -/
structure SignalResult where
  signal : Bool
  atr : Option ℚ
  diag : SigDiag
deriving DecidableEq

/-- Python `series.iloc[-i]` on a list (defaults to 0 out of range; every use below is
guarded by a length check mirroring the source). -/
def ilocNeg (l : List ℚ) (i : ℕ) : ℚ :=
  l.reverse.getD (i - 1) 0

/-- Embeds `SignalAnalyzer.analyze_long_signal`.  Walks backward from `iloc[-2]`
(`for i in range(2, min(len, 20))`) counting strictly negative histogram
values; requires the 1h histogram to have just flipped positive and the 4h
histogram to be strictly positive. -/
def analyze_long_signal (min_consecutive_bars : ℕ) (data_4h : List Row4h)
    (data_1h : List Row1h) : SignalResult :=
  if data_1h.length < min_consecutive_bars + 2 then
    ⟨false, none, SigDiag.insufficient_data⟩
  else
    let hist := data_1h.map Row1h.hist
    let current_1h := ilocNeg hist 1
    let prev_1h := ilocNeg hist 2
    if ¬ (current_1h > 0 ∧ prev_1h ≤ 0) then
      ⟨false, none, SigDiag.not_first_flip⟩
    else
      let m := min data_1h.length 20
      let consecutive_negative :=
        (((hist.reverse.drop 1).take (m - 2)).takeWhile (fun x => decide (x < 0))).length
      if ¬ (consecutive_negative ≥ min_consecutive_bars) then
        ⟨false, none, SigDiag.not_enough_run⟩
      else
        let current_4h := ilocNeg (data_4h.map Row4h.hist) 1
        if ¬ (current_4h > 0) then
          ⟨false, none, SigDiag.slow_wrong_sign⟩
        else
          ⟨true, some (ilocNeg (data_1h.map Row1h.atr) 1), SigDiag.confirmed⟩

/-- Embeds `SignalAnalyzer.analyze_short_signal` (all comparisons inverted). -/
def analyze_short_signal (min_consecutive_bars : ℕ) (data_4h : List Row4h)
    (data_1h : List Row1h) : SignalResult :=
  if data_1h.length < min_consecutive_bars + 2 then
    ⟨false, none, SigDiag.insufficient_data⟩
  else
    let hist := data_1h.map Row1h.hist
    let current_1h := ilocNeg hist 1
    let prev_1h := ilocNeg hist 2
    if ¬ (current_1h < 0 ∧ prev_1h ≥ 0) then
      ⟨false, none, SigDiag.not_first_flip⟩
    else
      let m := min data_1h.length 20
      let consecutive_positive :=
        (((hist.reverse.drop 1).take (m - 2)).takeWhile (fun x => decide (x > 0))).length
      if ¬ (consecutive_positive ≥ min_consecutive_bars) then
        ⟨false, none, SigDiag.not_enough_run⟩
      else
        let current_4h := ilocNeg (data_4h.map Row4h.hist) 1
        if ¬ (current_4h < 0) then
          ⟨false, none, SigDiag.slow_wrong_sign⟩
        else
          ⟨true, some (ilocNeg (data_1h.map Row1h.atr) 1), SigDiag.confirmed⟩

/-! ## Backtest engine (`BacktestEngine.execute_backtest`) -/

/-- Position side (the strings `long` / `short` in the source). -/
inductive Side where
  | long
  | short
deriving DecidableEq

/-- One 1h OHLC bar of the trading-period data (`data_1h` rows); volume is
unused by the simulation.  Fields: timestamp, open, high, low, close. -/
structure Bar where
  time : ℕ
  op : ℚ
  hi : ℚ
  lo : ℚ
  cl : ℚ
deriving DecidableEq

/-- The `pending_signal` dictionary (`type`, `atr`, `time`). -/
structure PendingSignal where
  side : Side
  atr : ℚ
  time : ℕ
deriving DecidableEq

/-- The open-position scalar variables of `execute_backtest`
(`position`, `entry_price`, `entry_time`, `position_size`, `stop_loss`,
`take_profit`, `margin_used`, `notional_value`, `actual_leverage`), bundled. -/
structure Position where
  side : Side
  entry_price : ℚ
  entry_time : ℕ
  position_size : ℚ
  stop_loss : ℚ
  take_profit : ℚ
  margin_used : ℚ
  notional_value : ℚ
  actual_leverage : ℕ
deriving DecidableEq

/-- Exit reason recorded in a trade (the source strings for liquidation, stop, target, forced close). -/
inductive ExitReason where
  | liquidation
  | stop_loss
  | take_profit
  | forced_close
deriving DecidableEq

/-- One entry of the `trades` list. -/
structure Trade where
  entry_time : ℕ
  exit_time : ℕ
  side : Side
  entry_price : ℚ
  exit_price : ℚ
  pnl : ℚ
  reason : ExitReason
  leverage : ℕ
  desired_leverage : ℕ
  margin_used : ℚ
  notional_value : ℚ
  maintenance_margin_rate : ℚ
deriving DecidableEq

/-- One entry of the `equity_curve` list. -/
structure EquityPoint where
  timestamp : ℕ
  equity : ℚ
  price : ℚ
  position : Option Side
  unrealized_pnl : ℚ
deriving DecidableEq

/-- The mutable state of the simulation loop. -/
structure EngineState where
  capital : ℚ
  position : Option Position
  pending : Option PendingSignal
  trades : List Trade
  equity_curve : List EquityPoint
deriving DecidableEq

/-- Unrealized pnl of an open position at a price
(`(current_price - entry_price) * position_size`, sign-flipped for short). -/
def unrealized (p : Position) (price : ℚ) : ℚ :=
  match p.side with
  | Side.long => (price - p.entry_price) * p.position_size
  | Side.short => (p.entry_price - price) * p.position_size

/-- Lines 188-207: compute `current_equity` from the state carried into the
bar and append the bar equity point (this happens FIRST in the loop body). -/
def record_equity (s : EngineState) (b : Bar) : EngineState :=
  match s.position with
  | none =>
      { s with equity_curve := s.equity_curve ++ [⟨b.time, s.capital, b.cl, none, 0⟩] }
  | some p =>
      let u := unrealized p b.cl
      { s with equity_curve :=
          s.equity_curve ++ [⟨b.time, s.capital + p.margin_used + u, b.cl, some p.side, u⟩] }

/-- Lines 210-214: the warm-up check.  `data_4h_filtered` / `data_1h_filtered`
are the full analysis series restricted to `index <= current_time`; the bar is
processed further only when both have at least 50 rows. -/
def warm_ok (analysis_1h : List Row1h) (analysis_4h : List Row4h) (t : ℕ) : Bool :=
  decide (50 ≤ (analysis_4h.filter (fun r => decide (r.time ≤ t))).length) &&
  decide (50 ≤ (analysis_1h.filter (fun r => decide (r.time ≤ t))).length)

/-- The position built when a pending signal is filled at the current bar
open (lines 218-294): entry price is the bar OPEN, stop/target are
`entry ∓ atr*STOP_LOSS_MULTIPLIER` and `entry ± atr*STOP_LOSS_MULTIPLIER* RISK_REWARD_RATIO`,
sizing comes from `calculate_position_details`. -/
def opened_position (capital : ℚ) (sig : PendingSignal) (b : Bar) : Position :=
  let entry_price := b.op
  let d := calculate_position_details capital POSITION_SIZE LEVERAGE entry_price
  match sig.side with
  | Side.long =>
      ⟨Side.long, entry_price, b.time, d.position_quantity,
        entry_price - sig.atr * STOP_LOSS_MULTIPLIER,
        entry_price + sig.atr * STOP_LOSS_MULTIPLIER * RISK_REWARD_RATIO,
        d.margin_used, d.actual_notional, d.actual_leverage⟩
  | Side.short =>
      ⟨Side.short, entry_price, b.time, d.position_quantity,
        entry_price + sig.atr * STOP_LOSS_MULTIPLIER,
        entry_price - sig.atr * STOP_LOSS_MULTIPLIER * RISK_REWARD_RATIO,
        d.margin_used, d.actual_notional, d.actual_leverage⟩

/-- Lines 216-312: fill the pending signal, if any, when no position is open:
deduct the margin from cash, open the position, clear the pending signal. -/
def fill_pending (s : EngineState) (b : Bar) : EngineState :=
  match s.pending, s.position with
  | some sig, none =>
      let p := opened_position s.capital sig b
      { s with capital := s.capital - p.margin_used
               position := some p
               pending := none }
  | _, _ => s

/-- The liquidation price computed on every bar with an open position
(lines 319-333): dynamic maintenance-margin rate looked up at the position
notional value, `max_loss = margin - margin*mmr`, divided by the quantity
(no zero-quantity guard in the source). -/
def liquidation_price (p : Position) : ℚ :=
  let mmr := calculate_maintenance_margin_rate p.notional_value
  let max_loss := p.margin_used - p.margin_used * mmr
  match p.side with
  | Side.long => p.entry_price - max_loss / p.position_size
  | Side.short => p.entry_price + max_loss / p.position_size

/-- Lines 314-411: exit checks for an open position, strictly in the order
liquidation (bar extreme touches the liquidation price), then stop-loss, then
take-profit; at most one exit fires.  On liquidation `pnl = -margin_used` and
nothing is returned to cash; otherwise `pnl` is the signed price difference
times quantity and `margin_used + pnl` is credited back. -/
def check_exit (s : EngineState) (b : Bar) : EngineState :=
  match s.position with
  | none => s
  | some p =>
      let mmr := calculate_maintenance_margin_rate p.notional_value
      let liq := liquidation_price p
      let exitInfo : Option (ℚ × ExitReason) :=
        match p.side with
        | Side.long =>
            if b.lo ≤ liq then some (liq, ExitReason.liquidation)
            else if b.lo ≤ p.stop_loss then some (p.stop_loss, ExitReason.stop_loss)
            else if b.hi ≥ p.take_profit then some (p.take_profit, ExitReason.take_profit)
            else none
        | Side.short =>
            if b.hi ≥ liq then some (liq, ExitReason.liquidation)
            else if b.hi ≥ p.stop_loss then some (p.stop_loss, ExitReason.stop_loss)
            else if b.lo ≤ p.take_profit then some (p.take_profit, ExitReason.take_profit)
            else none
      match exitInfo with
      | none => s
      | some (exit_price, reason) =>
          let pnl :=
            if reason = ExitReason.liquidation then -p.margin_used
            else match p.side with
              | Side.long => (exit_price - p.entry_price) * p.position_size
              | Side.short => (p.entry_price - exit_price) * p.position_size
          { s with
            capital := if reason = ExitReason.liquidation then s.capital
                       else s.capital + p.margin_used + pnl
            position := none
            trades := s.trades ++
              [⟨p.entry_time, b.time, p.side, p.entry_price, exit_price, pnl, reason,
                p.actual_leverage, LEVERAGE, p.margin_used, p.notional_value, mmr⟩] }

/-- Lines 413-440: scan for a new signal, only when there is neither an open
position nor a pending signal; the long analyzer is consulted first. -/
def scan_signal (analysis_1h : List Row1h) (analysis_4h : List Row4h)
    (s : EngineState) (b : Bar) : EngineState :=
  match s.position, s.pending with
  | none, none =>
      let f4 := analysis_4h.filter (fun r => decide (r.time ≤ b.time))
      let f1 := analysis_1h.filter (fun r => decide (r.time ≤ b.time))
      let longSig := analyze_long_signal MIN_CONSECUTIVE_BARS f4 f1
      let shortSig := analyze_short_signal MIN_CONSECUTIVE_BARS f4 f1
      if longSig.signal then
        { s with pending := some ⟨Side.long, longSig.atr.getD 0, b.time⟩ }
      else if shortSig.signal then
        { s with pending := some ⟨Side.short, shortSig.atr.getD 0, b.time⟩ }
      else s
  | _, _ => s

/-- One iteration of the `for i, (current_time, row) in enumerate(...)` loop:
record the equity point FIRST, then — only if the warm-up check passes — fill
the pending signal at the bar open, check exits, and scan for a new signal. -/
def step_bar (analysis_1h : List Row1h) (analysis_4h : List Row4h)
    (s : EngineState) (b : Bar) : EngineState :=
  let s1 := record_equity s b
  if warm_ok analysis_1h analysis_4h b.time then
    scan_signal analysis_1h analysis_4h (check_exit (fill_pending s1 b) b) b
  else s1

/-- Initial loop state: `capital = initial_capital`, no position, no pending
signal, empty trades and equity curve. -/
def init_state (initial_capital : ℚ) : EngineState :=
  ⟨initial_capital, none, none, [], []⟩

/-- Folding the loop body over a list of trading bars. -/
def run_from (analysis_1h : List Row1h) (analysis_4h : List Row4h)
    (s : EngineState) (bars : List Bar) : EngineState :=
  bars.foldl (step_bar analysis_1h analysis_4h) s

/-- Lines 443-480: if a position is still open after the loop, force-close it
at the last bar close price, returning `margin_used + pnl` to cash. -/
def force_close (s : EngineState) (bars : List Bar) : EngineState :=
  match s.position, bars.getLast? with
  | some p, some lastBar =>
      let final_price := lastBar.cl
      let pnl :=
        match p.side with
        | Side.long => (final_price - p.entry_price) * p.position_size
        | Side.short => (p.entry_price - final_price) * p.position_size
      { s with capital := s.capital + p.margin_used + pnl
               position := none
               trades := s.trades ++
                 [⟨p.entry_time, lastBar.time, p.side, p.entry_price, final_price, pnl,
                   ExitReason.forced_close, p.actual_leverage, LEVERAGE, p.margin_used,
                   p.notional_value, calculate_maintenance_margin_rate p.notional_value⟩] }
  | _, _ => s

/-- Embeds `BacktestEngine.execute_backtest` restricted to its simulation semantics:
run the loop over the trading bars, then force-close.  A pending signal left
at data end is simply discarded (never becomes a position or a trade). -/
def execute_backtest (bars : List Bar) (analysis_1h : List Row1h)
    (analysis_4h : List Row4h) (initial_capital : ℚ) : EngineState :=
  force_close (run_from analysis_1h analysis_4h (init_state initial_capital) bars) bars

/-! ## Performance statistics (lines 486-519 and `run_backtest` lines 836-840) -/

/-- Python `pandas.Series.max` over the pnl column (source guarantees nonemptiness;
0 for the empty list, matching the zero-trade branch). -/
def series_max (l : List ℚ) : ℚ :=
  match l with
  | [] => 0
  | x :: xs => xs.foldl max x

/-- Python `pandas.Series.min` over the pnl column. -/
def series_min (l : List ℚ) : ℚ :=
  match l with
  | [] => 0
  | x :: xs => xs.foldl min x

/-- The summary statistics of the returned result dictionary. -/
structure Stats where
  total_pnl : ℚ
  win_rate : ℚ
  avg_win : ℚ
  avg_loss : ℚ
  best_trade : ℚ
  worst_trade : ℚ
  total_return : ℚ
  final_capital : ℚ
  total_trades : ℕ
deriving DecidableEq

/-- Lines 486-519: the trade-list reduction.  `win_rate` and `total_return`
are PERCENTAGES (multiplied by 100 in the source); the win subset is
`pnl > 0`, the lose subset `pnl <= 0`; the averages are 0 for empty subsets;
with no trades everything but `total_return` is set to 0. -/
def compute_stats (initial_capital capital : ℚ) (trades : List Trade) : Stats :=
  let pnls := trades.map Trade.pnl
  let wins := pnls.filter (fun x => decide (0 < x))
  let losses := pnls.filter (fun x => decide (x ≤ 0))
  if trades.isEmpty then
    ⟨0, 0, 0, 0, 0, 0, (capital - initial_capital) / initial_capital * 100, capital, 0⟩
  else
    ⟨pnls.sum,
      ((wins.length : ℚ) / (pnls.length : ℚ)) * 100,
      if wins.isEmpty then 0 else wins.sum / (wins.length : ℚ),
      if losses.isEmpty then 0 else losses.sum / (losses.length : ℚ),
      series_max pnls,
      series_min pnls,
      (capital - initial_capital) / initial_capital * 100,
      capital,
      trades.length⟩

/-- Embeds `run_backtest` lines 836-840: the profit factor is printed only when both
the win count and the lose count are positive (`none` = not computed). -/
def profit_factor (avg_win avg_loss : ℚ) (win_count lose_count : ℕ) : Option ℚ :=
  if 0 < win_count ∧ 0 < lose_count then
    some |avg_win * (win_count : ℚ) / (avg_loss * (lose_count : ℚ))|
  else none

/-! ## Spec-side definitions

These follow the SPEC's words (for refutation / refinement comparison), not
the source. -/

/-- Modelled from the claim C5 wording: fire iff the latest fast histogram is
strictly positive, the previous one non-positive, the run of strictly negative
values walking backward FROM THE THIRD-LATEST value (`h[2]`) is at least the
threshold, and the slow timeframe's current histogram is strictly positive. -/
def spec_long_fires (min_consecutive_bars : ℕ) (data_4h : List Row4h)
    (data_1h : List Row1h) : Bool :=
  let hist := data_1h.map Row1h.hist
  decide (min_consecutive_bars + 2 ≤ data_1h.length) &&
  decide (0 < ilocNeg hist 1) &&
  decide (ilocNeg hist 2 ≤ 0) &&
  decide (min_consecutive_bars ≤ ((hist.reverse.drop 2).takeWhile (fun x => decide (x < 0))).length) &&
  decide (0 < ilocNeg (data_4h.map Row4h.hist) 1)

/-- The equity point the engine appends for a bar, as a function of the state
CARRIED INTO the bar (used to characterize `record_equity`). -/
def bar_equity_point (s : EngineState) (b : Bar) : EquityPoint :=
  match s.position with
  | none => ⟨b.time, s.capital, b.cl, none, 0⟩
  | some p =>
      ⟨b.time, s.capital + p.margin_used + unrealized p b.cl, b.cl, some p.side,
        unrealized p b.cl⟩

/-! ## Concrete fixtures for witnesses and counterexamples -/

/-- Histogram pattern for the witness analysis data: strictly negative on
indices 45..48, positive elsewhere, so the 1h histogram flips positive at
index 49 after a 4-bar negative run. -/
def hist_at (i : ℕ) : ℚ :=
  if 45 ≤ i ∧ i ≤ 48 then -1 else 1

/-- 50 rows of 1h analysis data at times 0..49, ATR 10. -/
def a1c : List Row1h :=
  (List.range 50).map (fun i => ⟨i, hist_at i, 10⟩)

/-- 50 rows of 4h analysis data at times 0..49, histogram 1. -/
def a4c : List Row4h :=
  (List.range 50).map (fun i => ⟨i, 1⟩)

/-- Trading bar at time 49 (the signal bar of the witness run). -/
def bar0c : Bar := ⟨49, 100, 100, 100, 100⟩

/-- Trading bar at time 50 (the fill bar of the witness run): opens at 100,
closes at 110, touches no stop/target/liquidation level. -/
def bar1c : Bar := ⟨50, 100, 110, 100, 110⟩

/-- A long position as opened at price 100 with capital 10000
(margin 500, notional 25000, quantity 250, stop 85, target 118). -/
def posW : Position := ⟨Side.long, 100, 50, 250, 85, 118, 500, 25000, 50⟩

/-- Engine state holding `posW` with the margin already deducted. -/
def stateW : EngineState := ⟨9500, some posW, none, [], []⟩

/-- A bar whose low (98) touches `posW`'s liquidation price (98.008). -/
def barLiq : Bar := ⟨60, 99, 99, 98, 99⟩

/-- A pending long signal (as recorded at bar time 49 with ATR 10). -/
def sigW : PendingSignal := ⟨Side.long, 10, 49⟩

/-- Flat state carrying the pending signal `sigW`. -/
def statePend : EngineState := ⟨10000, none, some sigW, [], []⟩

/-- A bar with OPEN PRICE ZERO at time 50 (fills `sigW` at a degenerate entry
price); its range misses the resulting stop/target/liquidation levels. -/
def barZero : Bar := ⟨50, 0, 2, 1, 1⟩

/-- A winning trade with pnl 1 (for the statistics counterexample). -/
def tradeWin : Trade :=
  ⟨0, 1, Side.long, 100, 101, 1, ExitReason.take_profit, 50, 50, 500, 25000, 1/250⟩

/-- 1h fixture refuting the claimed C5 condition: histogram
`[-1, -1, -1, -1, 0, 2]` (spec walk from the third-latest value counts 4
negatives; the code walk from the second-latest stops at the 0). -/
def d1x : List Row1h :=
  [⟨0, -1, 7⟩, ⟨1, -1, 7⟩, ⟨2, -1, 7⟩, ⟨3, -1, 7⟩, ⟨4, 0, 7⟩, ⟨5, 2, 7⟩]

/-- 4h fixture with a single strictly positive histogram value. -/
def d4x : List Row4h := [⟨0, 1⟩]

/-- A too-short 1h series (for the insufficient-history witness). -/
def d1s : List Row1h := [⟨0, 1, 1⟩]

/-- Reachability invariant of the simulation loop: a pending signal implies a
flat book and was created at a bar (time satisfying `T`) that passed the
warm-up check; an open position was likewise opened at a bar that passed it. -/
def StateInv (a1 : List Row1h) (a4 : List Row4h) (T : ℕ → Prop) (s : EngineState) : Prop :=
  (∀ sig, s.pending = some sig →
      s.position = none ∧ warm_ok a1 a4 sig.time = true ∧ T sig.time) ∧
  (∀ p, s.position = some p → warm_ok a1 a4 p.entry_time = true ∧ T p.entry_time)

/-- Invariant for the zero-trade bookkeeping: with an empty trade list, either
the book is flat with the initial capital intact, or exactly one position is
open and cash is the initial capital minus its margin. -/
def NTInv (c : ℚ) (s : EngineState) : Prop :=
  s.trades = [] →
    ((s.position = none ∧ s.capital = c) ∨
      ∃ p, s.position = some p ∧ s.capital = c - p.margin_used)

/-! ## Helper lemmas about the loop sub-steps -/

lemma record_equity_fields (s : EngineState) (b : Bar) :
    (record_equity s b).capital = s.capital ∧
    (record_equity s b).position = s.position ∧
    (record_equity s b).pending = s.pending ∧
    (record_equity s b).trades = s.trades ∧
    (record_equity s b).equity_curve = s.equity_curve ++ [bar_equity_point s b] := by
  cases h : s.position <;> simp [record_equity, bar_equity_point, h]

lemma fill_pending_stuck (s : EngineState) (b : Bar)
    (h : s.pending = none ∨ s.position ≠ none) : fill_pending s b = s := by
  cases hp : s.pending with
  | none => simp [fill_pending, hp]
  | some sig =>
    cases hq : s.position with
    | none =>
        rcases h with h | h
        · exact absurd hp (by simp [h])
        · exact absurd hq h
    | some p => simp [fill_pending, hp, hq]

lemma fill_pending_fires (s : EngineState) (b : Bar) (sig : PendingSignal)
    (hp : s.pending = some sig) (hq : s.position = none) :
    fill_pending s b =
      { s with capital := s.capital - (opened_position s.capital sig b).margin_used
               position := some (opened_position s.capital sig b)
               pending := none } := by
  simp [fill_pending, hp, hq]

lemma fill_pending_keeps (s : EngineState) (b : Bar) :
    (fill_pending s b).trades = s.trades ∧
    (fill_pending s b).equity_curve = s.equity_curve := by
  cases hp : s.pending <;> cases hq : s.position <;> simp [fill_pending, hp, hq]

lemma opened_position_entry (capital : ℚ) (sig : PendingSignal) (b : Bar) :
    (opened_position capital sig b).entry_time = b.time ∧
    (opened_position capital sig b).entry_price = b.op := by
  cases hs : sig.side <;> simp [opened_position, hs]

lemma check_exit_flat (s : EngineState) (b : Bar) (h : s.position = none) :
    check_exit s b = s := by
  simp [check_exit, h]

lemma check_exit_long (s : EngineState) (b : Bar) (p : Position)
    (hp : s.position = some p) (hside : p.side = Side.long) :
    check_exit s b =
      if b.lo ≤ liquidation_price p then
        { s with position := none
                 trades := s.trades ++
                   [⟨p.entry_time, b.time, Side.long, p.entry_price, liquidation_price p,
                     -p.margin_used, ExitReason.liquidation, p.actual_leverage, LEVERAGE,
                     p.margin_used, p.notional_value,
                     calculate_maintenance_margin_rate p.notional_value⟩] }
      else if b.lo ≤ p.stop_loss then
        { s with capital := s.capital + p.margin_used +
                   (p.stop_loss - p.entry_price) * p.position_size
                 position := none
                 trades := s.trades ++
                   [⟨p.entry_time, b.time, Side.long, p.entry_price, p.stop_loss,
                     (p.stop_loss - p.entry_price) * p.position_size, ExitReason.stop_loss,
                     p.actual_leverage, LEVERAGE, p.margin_used, p.notional_value,
                     calculate_maintenance_margin_rate p.notional_value⟩] }
      else if b.hi ≥ p.take_profit then
        { s with capital := s.capital + p.margin_used +
                   (p.take_profit - p.entry_price) * p.position_size
                 position := none
                 trades := s.trades ++
                   [⟨p.entry_time, b.time, Side.long, p.entry_price, p.take_profit,
                     (p.take_profit - p.entry_price) * p.position_size, ExitReason.take_profit,
                     p.actual_leverage, LEVERAGE, p.margin_used, p.notional_value,
                     calculate_maintenance_margin_rate p.notional_value⟩] }
      else s := by
  by_cases h1 : b.lo ≤ liquidation_price p
  · simp [check_exit, hp, hside, h1]
  · by_cases h2 : b.lo ≤ p.stop_loss
    · simp [check_exit, hp, hside, h1, h2]
    · by_cases h3 : b.hi ≥ p.take_profit
      · simp [check_exit, hp, hside, h1, h2, h3]
      · simp [check_exit, hp, hside, h1, h2, h3]

lemma check_exit_short (s : EngineState) (b : Bar) (p : Position)
    (hp : s.position = some p) (hside : p.side = Side.short) :
    check_exit s b =
      if b.hi ≥ liquidation_price p then
        { s with position := none
                 trades := s.trades ++
                   [⟨p.entry_time, b.time, Side.short, p.entry_price, liquidation_price p,
                     -p.margin_used, ExitReason.liquidation, p.actual_leverage, LEVERAGE,
                     p.margin_used, p.notional_value,
                     calculate_maintenance_margin_rate p.notional_value⟩] }
      else if b.hi ≥ p.stop_loss then
        { s with capital := s.capital + p.margin_used +
                   (p.entry_price - p.stop_loss) * p.position_size
                 position := none
                 trades := s.trades ++
                   [⟨p.entry_time, b.time, Side.short, p.entry_price, p.stop_loss,
                     (p.entry_price - p.stop_loss) * p.position_size, ExitReason.stop_loss,
                     p.actual_leverage, LEVERAGE, p.margin_used, p.notional_value,
                     calculate_maintenance_margin_rate p.notional_value⟩] }
      else if b.lo ≤ p.take_profit then
        { s with capital := s.capital + p.margin_used +
                   (p.entry_price - p.take_profit) * p.position_size
                 position := none
                 trades := s.trades ++
                   [⟨p.entry_time, b.time, Side.short, p.entry_price, p.take_profit,
                     (p.entry_price - p.take_profit) * p.position_size, ExitReason.take_profit,
                     p.actual_leverage, LEVERAGE, p.margin_used, p.notional_value,
                     calculate_maintenance_margin_rate p.notional_value⟩] }
      else s := by
  by_cases h1 : b.hi ≥ liquidation_price p
  · simp [check_exit, hp, hside, h1]
  · by_cases h2 : b.hi ≥ p.stop_loss
    · simp [check_exit, hp, hside, h1, h2]
    · by_cases h3 : b.lo ≤ p.take_profit
      · simp [check_exit, hp, hside, h1, h2, h3]
      · simp [check_exit, hp, hside, h1, h2, h3]

lemma check_exit_shape (s : EngineState) (b : Bar) (p : Position)
    (hp : s.position = some p) :
    check_exit s b = s ∨
      ((check_exit s b).position = none ∧ (check_exit s b).pending = s.pending ∧
        (check_exit s b).equity_curve = s.equity_curve ∧
        ∃ tr, (check_exit s b).trades = s.trades ++ [tr] ∧
          tr.entry_time = p.entry_time ∧ tr.entry_price = p.entry_price) := by
  cases hside : p.side
  · rw [check_exit_long s b p hp hside]
    split
    · right
      exact ⟨rfl, rfl, rfl, ⟨_, rfl, rfl, rfl⟩⟩
    · split
      · right
        exact ⟨rfl, rfl, rfl, ⟨_, rfl, rfl, rfl⟩⟩
      · split
        · right
          exact ⟨rfl, rfl, rfl, ⟨_, rfl, rfl, rfl⟩⟩
        · left; rfl
  · rw [check_exit_short s b p hp hside]
    split
    · right
      exact ⟨rfl, rfl, rfl, ⟨_, rfl, rfl, rfl⟩⟩
    · split
      · right
        exact ⟨rfl, rfl, rfl, ⟨_, rfl, rfl, rfl⟩⟩
      · split
        · right
          exact ⟨rfl, rfl, rfl, ⟨_, rfl, rfl, rfl⟩⟩
        · left; rfl

lemma check_exit_keeps (s : EngineState) (b : Bar) :
    (check_exit s b).pending = s.pending ∧
    (check_exit s b).equity_curve = s.equity_curve := by
  cases hp : s.position with
  | none => rw [check_exit_flat s b hp]; exact ⟨rfl, rfl⟩
  | some p =>
    rcases check_exit_shape s b p hp with h | h
    · rw [h]; exact ⟨rfl, rfl⟩
    · exact ⟨h.2.1, h.2.2.1⟩

lemma scan_skip (a1 : List Row1h) (a4 : List Row4h) (s : EngineState) (b : Bar)
    (h : s.position ≠ none ∨ s.pending ≠ none) : scan_signal a1 a4 s b = s := by
  cases hp : s.position with
  | some p => simp [scan_signal, hp]
  | none =>
    cases hq : s.pending with
    | some sig => simp [scan_signal, hp, hq]
    | none =>
      rcases h with h | h
      · exact absurd hp h
      · exact absurd hq h

lemma scan_flat_eq (a1 : List Row1h) (a4 : List Row4h) (s : EngineState) (b : Bar)
    (hp : s.position = none) (hq : s.pending = none) :
    scan_signal a1 a4 s b =
      (if (analyze_long_signal MIN_CONSECUTIVE_BARS
            (a4.filter (fun r => decide (r.time ≤ b.time)))
            (a1.filter (fun r => decide (r.time ≤ b.time)))).signal then
        { s with pending := some ⟨Side.long,
            (analyze_long_signal MIN_CONSECUTIVE_BARS
              (a4.filter (fun r => decide (r.time ≤ b.time)))
              (a1.filter (fun r => decide (r.time ≤ b.time)))).atr.getD 0, b.time⟩ }
      else if (analyze_short_signal MIN_CONSECUTIVE_BARS
            (a4.filter (fun r => decide (r.time ≤ b.time)))
            (a1.filter (fun r => decide (r.time ≤ b.time)))).signal then
        { s with pending := some ⟨Side.short,
            (analyze_short_signal MIN_CONSECUTIVE_BARS
              (a4.filter (fun r => decide (r.time ≤ b.time)))
              (a1.filter (fun r => decide (r.time ≤ b.time)))).atr.getD 0, b.time⟩ }
      else s) := by
  have h1 : s.position = none := hp
  have h2 : s.pending = none := hq
  unfold scan_signal
  rw [h1, h2]

lemma scan_fields (a1 : List Row1h) (a4 : List Row4h) (s : EngineState) (b : Bar) :
    (scan_signal a1 a4 s b).capital = s.capital ∧
    (scan_signal a1 a4 s b).position = s.position ∧
    (scan_signal a1 a4 s b).trades = s.trades ∧
    (scan_signal a1 a4 s b).equity_curve = s.equity_curve := by
  cases hp : s.position with
  | some p =>
    rw [scan_skip a1 a4 s b (Or.inl (by simp [hp]))]
    simp [hp]
  | none =>
    cases hq : s.pending with
    | some sig =>
      rw [scan_skip a1 a4 s b (Or.inr (by simp [hq]))]
      simp [hp]
    | none =>
      rw [scan_flat_eq a1 a4 s b hp hq]
      split
      · simp [hp]
      · split
        · simp [hp]
        · simp [hp]

lemma scan_pending_cases (a1 : List Row1h) (a4 : List Row4h) (s : EngineState) (b : Bar) :
    (scan_signal a1 a4 s b).pending = s.pending ∨
      (∃ sig', (scan_signal a1 a4 s b).pending = some sig' ∧ sig'.time = b.time ∧
        s.pending = none ∧ s.position = none) := by
  cases hp : s.position with
  | some p =>
    left
    rw [scan_skip a1 a4 s b (Or.inl (by simp [hp]))]
  | none =>
    cases hq : s.pending with
    | some sig =>
      left
      rw [scan_skip a1 a4 s b (Or.inr (by simp [hq]))]
      exact hq
    | none =>
      rw [scan_flat_eq a1 a4 s b hp hq]
      split
      · right
        refine ⟨_, rfl, rfl, ?_, ?_⟩ <;> simp [hp, hq]
      · split
        · right
          refine ⟨_, rfl, rfl, ?_, ?_⟩ <;> simp [hp, hq]
        · left; exact hq

lemma step_warm_false (a1 : List Row1h) (a4 : List Row4h) (s : EngineState) (b : Bar)
    (hw : warm_ok a1 a4 b.time = false) :
    step_bar a1 a4 s b = record_equity s b := by
  simp [step_bar, hw]

lemma step_warm_true (a1 : List Row1h) (a4 : List Row4h) (s : EngineState) (b : Bar)
    (hw : warm_ok a1 a4 b.time = true) :
    step_bar a1 a4 s b =
      scan_signal a1 a4 (check_exit (fill_pending (record_equity s b) b) b) b := by
  simp [step_bar, hw]

lemma filter_le_mono {α : Type} (f : α → ℕ) (l : List α) {t t' : ℕ} (h : t ≤ t') :
    (l.filter (fun r => decide (f r ≤ t))).length ≤
      (l.filter (fun r => decide (f r ≤ t'))).length := by
  induction l with
  | nil => simp
  | cons a l ih =>
    by_cases h1 : f a ≤ t
    · have h2 : f a ≤ t' := le_trans h1 h
      simp [List.filter_cons, h1, h2]
      omega
    · by_cases h2 : f a ≤ t'
      · simp [List.filter_cons, h1, h2]
        omega
      · simp [List.filter_cons, h1, h2]
        exact ih

lemma warm_ok_mono (a1 : List Row1h) (a4 : List Row4h) {t t' : ℕ} (h : t ≤ t')
    (hw : warm_ok a1 a4 t = true) : warm_ok a1 a4 t' = true := by
  simp only [warm_ok, Bool.and_eq_true, decide_eq_true_eq] at hw ⊢
  exact ⟨le_trans hw.1 (filter_le_mono Row4h.time a4 h),
    le_trans hw.2 (filter_le_mono Row1h.time a1 h)⟩

/-! ## The reachability invariant -/

lemma StateInv_mono {a1 : List Row1h} {a4 : List Row4h} {T T' : ℕ → Prop}
    (h : ∀ t, T t → T' t) {s : EngineState} (hs : StateInv a1 a4 T s) :
    StateInv a1 a4 T' s := by
  obtain ⟨h1, h2⟩ := hs
  refine ⟨fun sig hsig => ?_, fun p hp => ?_⟩
  · obtain ⟨a, b, c⟩ := h1 sig hsig
    exact ⟨a, b, h _ c⟩
  · obtain ⟨a, b⟩ := h2 p hp
    exact ⟨a, h _ b⟩

lemma step_inv (a1 : List Row1h) (a4 : List Row4h) {T : ℕ → Prop}
    (s : EngineState) (b : Bar) (hs : StateInv a1 a4 T s) :
    StateInv a1 a4 (fun t => T t ∨ t = b.time) (step_bar a1 a4 s b) := by
  obtain ⟨hPend, hPos⟩ := hs
  obtain ⟨hc1, hpos1, hpend1, ht1, hcu1⟩ := record_equity_fields s b
  by_cases hw : warm_ok a1 a4 b.time = true
  case neg =>
    have hw' : warm_ok a1 a4 b.time = false := by simpa using hw
    rw [step_warm_false a1 a4 s b hw']
    refine ⟨fun sig hsig => ?_, fun p hp => ?_⟩
    · rw [hpend1] at hsig
      obtain ⟨h1, h2, h3⟩ := hPend sig hsig
      exact ⟨by rw [hpos1]; exact h1, h2, Or.inl h3⟩
    · rw [hpos1] at hp
      obtain ⟨h1, h2⟩ := hPos p hp
      exact ⟨h1, Or.inl h2⟩
  case pos =>
    rw [step_warm_true a1 a4 s b hw]
    cases hqs : s.pending with
    | some sig =>
      have hflat : s.position = none := (hPend sig hqs).1
      have hfill := fill_pending_fires (record_equity s b) b sig
        (by rw [hpend1]; exact hqs) (by rw [hpos1]; exact hflat)
      have hpend3 : (check_exit (fill_pending (record_equity s b) b) b).pending = none := by
        rw [(check_exit_keeps (fill_pending (record_equity s b) b) b).1, hfill]
      have hshape := check_exit_shape (fill_pending (record_equity s b) b) b
        (opened_position (record_equity s b).capital sig b) (by rw [hfill])
      refine ⟨fun sig' hsig' => ?_, fun p' hp' => ?_⟩
      · rcases scan_pending_cases a1 a4 (check_exit (fill_pending (record_equity s b) b) b) b
          with hcase | hcase
        · rw [hcase, hpend3] at hsig'
          simp at hsig'
        · obtain ⟨sig'', hps', htime, _, hpos0⟩ := hcase
          rw [hps'] at hsig'
          have hss : sig'' = sig' := Option.some.inj hsig'
          subst hss
          refine ⟨?_, ?_, Or.inr htime⟩
          · rw [(scan_fields a1 a4 (check_exit (fill_pending (record_equity s b) b) b) b).2.1]
            exact hpos0
          · rw [htime]; exact hw
      · rw [(scan_fields a1 a4 (check_exit (fill_pending (record_equity s b) b) b) b).2.1] at hp'
        rcases hshape with hcase | hcase
        · rw [hcase, hfill] at hp'
          have hpp : opened_position (record_equity s b).capital sig b = p' :=
            Option.some.inj hp'
          have hent := (opened_position_entry (record_equity s b).capital sig b).1
          rw [hpp] at hent
          refine ⟨?_, Or.inr hent⟩
          rw [hent]; exact hw
        · rw [hcase.1] at hp'
          simp at hp'
    | none =>
      have hstuck := fill_pending_stuck (record_equity s b) b
        (Or.inl (by rw [hpend1]; exact hqs))
      rw [hstuck]
      cases hps : s.position with
      | none =>
        have hflat1 : (record_equity s b).position = none := by rw [hpos1]; exact hps
        rw [check_exit_flat (record_equity s b) b hflat1]
        refine ⟨fun sig' hsig' => ?_, fun p' hp' => ?_⟩
        · rcases scan_pending_cases a1 a4 (record_equity s b) b with hcase | hcase
          · rw [hcase, hpend1, hqs] at hsig'
            simp at hsig'
          · obtain ⟨sig'', hps', htime, _, _⟩ := hcase
            rw [hps'] at hsig'
            have hss : sig'' = sig' := Option.some.inj hsig'
            subst hss
            refine ⟨?_, ?_, Or.inr htime⟩
            · rw [(scan_fields a1 a4 (record_equity s b) b).2.1]
              exact hflat1
            · rw [htime]; exact hw
        · rw [(scan_fields a1 a4 (record_equity s b) b).2.1, hflat1] at hp'
          simp at hp'
      | some p =>
        have hsp1 : (record_equity s b).position = some p := by rw [hpos1]; exact hps
        obtain ⟨hwp, hTp⟩ := hPos p hps
        rcases check_exit_shape (record_equity s b) b p hsp1 with hcase | hcase
        case inl =>
          rw [hcase]
          refine ⟨fun sig' hsig' => ?_, fun p' hp' => ?_⟩
          · rcases scan_pending_cases a1 a4 (record_equity s b) b with hc2 | hc2
            · rw [hc2, hpend1, hqs] at hsig'
              simp at hsig'
            · obtain ⟨_, _, _, _, hpos0⟩ := hc2
              rw [hsp1] at hpos0
              simp at hpos0
          · rw [(scan_fields a1 a4 (record_equity s b) b).2.1, hsp1] at hp'
            have hpp : p = p' := Option.some.inj hp'
            subst hpp
            exact ⟨hwp, Or.inl hTp⟩
        case inr =>
          obtain ⟨hexpos, hexpend, _, _⟩ := hcase
          refine ⟨fun sig' hsig' => ?_, fun p' hp' => ?_⟩
          · rcases scan_pending_cases a1 a4 (check_exit (record_equity s b) b) b with hc2 | hc2
            · rw [hc2, hexpend, hpend1, hqs] at hsig'
              simp at hsig'
            · obtain ⟨sig'', hps', htime, _, hpos0⟩ := hc2
              rw [hps'] at hsig'
              have hss : sig'' = sig' := Option.some.inj hsig'
              subst hss
              refine ⟨?_, ?_, Or.inr htime⟩
              · rw [(scan_fields a1 a4 (check_exit (record_equity s b) b) b).2.1]
                exact hpos0
              · rw [htime]; exact hw
          · rw [(scan_fields a1 a4 (check_exit (record_equity s b) b) b).2.1, hexpos] at hp'
            simp at hp'

lemma run_from_inv (a1 : List Row1h) (a4 : List Row4h) :
    ∀ (l : List Bar) (s : EngineState) (T : ℕ → Prop), StateInv a1 a4 T s →
      StateInv a1 a4 (fun t => T t ∨ ∃ b ∈ l, Bar.time b = t) (run_from a1 a4 s l) := by
  intro l
  induction l with
  | nil =>
    intro s T hs
    exact StateInv_mono (fun t ht => Or.inl ht) hs
  | cons b l ih =>
    intro s T hs
    have h2 := ih (step_bar a1 a4 s b) _ (step_inv a1 a4 s b hs)
    refine StateInv_mono ?_ h2
    intro t ht
    rcases ht with (ht | ht) | ht
    · exact Or.inl ht
    · exact Or.inr ⟨b, by simp, ht.symm⟩
    · obtain ⟨b', hb', ht'⟩ := ht
      exact Or.inr ⟨b', by simp [hb'], ht'⟩

lemma run_inv (a1 : List Row1h) (a4 : List Row4h) (c : ℚ) (l : List Bar) :
    StateInv a1 a4 (fun t => ∃ b ∈ l, Bar.time b = t)
      (run_from a1 a4 (init_state c) l) := by
  have h0 : StateInv a1 a4 (fun _ => False) (init_state c) := by
    constructor
    · intro sig hsig
      simp [init_state] at hsig
    · intro p hp
      simp [init_state] at hp
  refine StateInv_mono ?_ (run_from_inv a1 a4 l (init_state c) _ h0)
  intro t ht
  tauto

lemma run_from_take_succ (a1 : List Row1h) (a4 : List Row4h) (s0 : EngineState)
    (bars : List Bar) (i : ℕ) (hi : i < bars.length) :
    run_from a1 a4 s0 (bars.take (i+1)) =
      step_bar a1 a4 (run_from a1 a4 s0 (bars.take i)) (bars.get ⟨i, hi⟩) := by
  rw [show run_from a1 a4 s0 (bars.take (i+1)) =
        (bars.take (i+1)).foldl (step_bar a1 a4) s0 from rfl,
      List.take_succ, List.getElem?_eq_getElem hi]
  rw [List.foldl_append]
  rfl

lemma mem_take_get {α : Type} (l : List α) (n : ℕ) (x : α) (hx : x ∈ l.take n) :
    ∃ (j : ℕ) (hj : j < l.length), j < n ∧ l.get ⟨j, hj⟩ = x := by
  obtain ⟨⟨j, hj⟩, hget⟩ := List.mem_iff_get.mp hx
  have hlen : (l.take n).length = min n l.length := List.length_take n l
  have hj1 : j < n := lt_of_lt_of_le (hlen ▸ hj) (min_le_left n l.length)
  have hj2 : j < l.length := lt_of_lt_of_le (hlen ▸ hj) (min_le_right n l.length)
  refine ⟨j, hj2, hj1, ?_⟩
  rw [← hget, List.get_eq_getElem, List.get_eq_getElem]
  exact (List.getElem_take l).symm

/-! ## Equity-curve and trade-list bookkeeping -/

lemma step_curve_append (a1 : List Row1h) (a4 : List Row4h) (s : EngineState) (b : Bar) :
    (step_bar a1 a4 s b).equity_curve = s.equity_curve ++ [bar_equity_point s b] := by
  by_cases hw : warm_ok a1 a4 b.time = true
  · rw [step_warm_true a1 a4 s b hw,
      (scan_fields a1 a4 (check_exit (fill_pending (record_equity s b) b) b) b).2.2.2,
      (check_exit_keeps (fill_pending (record_equity s b) b) b).2,
      (fill_pending_keeps (record_equity s b) b).2,
      (record_equity_fields s b).2.2.2.2]
  · rw [step_warm_false a1 a4 s b (by simpa using hw),
      (record_equity_fields s b).2.2.2.2]

lemma force_close_curve (s : EngineState) (bars : List Bar) :
    (force_close s bars).equity_curve = s.equity_curve := by
  cases hp : s.position with
  | none => simp [force_close, hp]
  | some p =>
    cases hl : bars.getLast? with
    | none => simp [force_close, hp, hl]
    | some lb => simp [force_close, hp, hl]

lemma run_from_curve_length (a1 : List Row1h) (a4 : List Row4h) :
    ∀ (l : List Bar) (s : EngineState),
      (run_from a1 a4 s l).equity_curve.length = s.equity_curve.length + l.length := by
  intro l
  induction l with
  | nil => intro s; simp [run_from]
  | cons b l ih =>
    intro s
    have h1 : run_from a1 a4 s (b :: l) = run_from a1 a4 (step_bar a1 a4 s b) l := rfl
    rw [h1, ih (step_bar a1 a4 s b), step_curve_append a1 a4 s b]
    simp
    omega

lemma step_trades_grow (a1 : List Row1h) (a4 : List Row4h) (s : EngineState) (b : Bar) :
    (step_bar a1 a4 s b).trades = s.trades ∨
      ∃ tr, (step_bar a1 a4 s b).trades = s.trades ++ [tr] := by
  by_cases hw : warm_ok a1 a4 b.time = true
  · rw [step_warm_true a1 a4 s b hw,
      (scan_fields a1 a4 (check_exit (fill_pending (record_equity s b) b) b) b).2.2.1]
    cases hp : (fill_pending (record_equity s b) b).position with
    | none =>
      left
      rw [check_exit_flat _ b hp, (fill_pending_keeps (record_equity s b) b).1,
        (record_equity_fields s b).2.2.2.1]
    | some p =>
      rcases check_exit_shape (fill_pending (record_equity s b) b) b p hp with h | h
      · left
        rw [h, (fill_pending_keeps (record_equity s b) b).1,
          (record_equity_fields s b).2.2.2.1]
      · obtain ⟨_, _, _, tr, htr, _⟩ := h
        right
        refine ⟨tr, ?_⟩
        rw [htr, (fill_pending_keeps (record_equity s b) b).1,
          (record_equity_fields s b).2.2.2.1]
  · left
    rw [step_warm_false a1 a4 s b (by simpa using hw), (record_equity_fields s b).2.2.2.1]

lemma step_nt (a1 : List Row1h) (a4 : List Row4h) (c : ℚ) (s : EngineState) (b : Bar)
    (h : NTInv c s) : NTInv c (step_bar a1 a4 s b) := by
  intro htr
  by_cases hw : warm_ok a1 a4 b.time = true
  case neg =>
    rw [step_warm_false a1 a4 s b (by simpa using hw)] at htr ⊢
    obtain ⟨hc1, hpos1, _, ht1, _⟩ := record_equity_fields s b
    rw [ht1] at htr
    rcases h htr with ⟨h1, h2⟩ | ⟨p, h1, h2⟩
    · exact Or.inl ⟨by rw [hpos1]; exact h1, by rw [hc1]; exact h2⟩
    · exact Or.inr ⟨p, by rw [hpos1]; exact h1, by rw [hc1]; exact h2⟩
  case pos =>
    rw [step_warm_true a1 a4 s b hw] at htr ⊢
    obtain ⟨hc1, hpos1, hpend1, ht1, _⟩ := record_equity_fields s b
    have hscf := scan_fields a1 a4 (check_exit (fill_pending (record_equity s b) b) b) b
    -- the exit step appended no trade (otherwise the final list is nonempty)
    have hsE : s.trades = [] := by
      cases hp2 : (fill_pending (record_equity s b) b).position with
      | none =>
        rw [hscf.2.2.1, check_exit_flat _ b hp2, (fill_pending_keeps (record_equity s b) b).1,
          ht1] at htr
        exact htr
      | some p2 =>
        rcases check_exit_shape (fill_pending (record_equity s b) b) b p2 hp2 with hcc | hcc
        · rw [hscf.2.2.1, hcc, (fill_pending_keeps (record_equity s b) b).1, ht1] at htr
          exact htr
        · obtain ⟨_, _, _, tr, htr2, _⟩ := hcc
          rw [hscf.2.2.1, htr2] at htr
          simp at htr
    rcases h hsE with ⟨h1, h2⟩ | ⟨p, h1, h2⟩
    · cases hqs : s.pending with
      | none =>
        have hstuck := fill_pending_stuck (record_equity s b) b
          (Or.inl (by rw [hpend1]; exact hqs))
        have hflat1 : (record_equity s b).position = none := by rw [hpos1]; exact h1
        left
        constructor
        · rw [hscf.2.1, hstuck, check_exit_flat (record_equity s b) b hflat1, hpos1]
          exact h1
        · rw [hscf.1, hstuck, check_exit_flat (record_equity s b) b hflat1, hc1]
          exact h2
      | some sig =>
        have hfill := fill_pending_fires (record_equity s b) b sig
          (by rw [hpend1]; exact hqs) (by rw [hpos1]; exact h1)
        rcases check_exit_shape (fill_pending (record_equity s b) b) b
            (opened_position (record_equity s b).capital sig b) (by rw [hfill]) with hcc | hcc
        · right
          refine ⟨opened_position (record_equity s b).capital sig b, ?_, ?_⟩
          · rw [hscf.2.1, hcc, hfill]
          · rw [hscf.1, hcc, hfill]
            simp only [hc1, h2]
        · obtain ⟨_, _, _, tr, htr2, _⟩ := hcc
          exfalso
          rw [hscf.2.2.1, htr2, (fill_pending_keeps (record_equity s b) b).1, ht1, hsE] at htr
          simp at htr
    · have hstuck := fill_pending_stuck (record_equity s b) b
        (Or.inr (by rw [hpos1, h1]; simp))
      rcases check_exit_shape (record_equity s b) b p (by rw [hpos1]; exact h1) with hcc | hcc
      · right
        refine ⟨p, ?_, ?_⟩
        · rw [hscf.2.1, hstuck, hcc, hpos1]
          exact h1
        · rw [hscf.1, hstuck, hcc, hc1]
          exact h2
      · obtain ⟨_, _, _, tr, htr2, _⟩ := hcc
        exfalso
        rw [hscf.2.2.1, hstuck, htr2, ht1, hsE] at htr
        simp at htr

lemma run_from_nt (a1 : List Row1h) (a4 : List Row4h) (c : ℚ) :
    ∀ (l : List Bar) (s : EngineState), NTInv c s → NTInv c (run_from a1 a4 s l) := by
  intro l
  induction l with
  | nil => intro s hs; exact hs
  | cons b l ih =>
    intro s hs
    exact ih (step_bar a1 a4 s b) (step_nt a1 a4 c s b hs)

lemma no_trades_capital (a1 : List Row1h) (a4 : List Row4h) (c : ℚ) (bars : List Bar)
    (h : (execute_backtest bars a1 a4 c).trades = []) :
    (execute_backtest bars a1 a4 c).capital = c := by
  have hnt : NTInv c (run_from a1 a4 (init_state c) bars) :=
    run_from_nt a1 a4 c bars (init_state c) (fun _ => Or.inl ⟨rfl, rfl⟩)
  unfold execute_backtest at h ⊢
  cases hpos : (run_from a1 a4 (init_state c) bars).position with
  | none =>
    rw [show force_close (run_from a1 a4 (init_state c) bars) bars =
          run_from a1 a4 (init_state c) bars by unfold force_close; rw [hpos]] at h ⊢
    rcases hnt h with ⟨_, h2⟩ | ⟨p, h1, _⟩
    · exact h2
    · rw [hpos] at h1; simp at h1
  | some p =>
    cases hlast : bars.getLast? with
    | none =>
      have hnil : bars = [] := by
        cases bars with
        | nil => rfl
        | cons x xs => simp [List.getLast?_eq_none_iff] at hlast
      subst hnil
      rw [show run_from a1 a4 (init_state c) [] = init_state c from rfl] at hpos
      simp [init_state] at hpos
    | some lb =>
      exfalso
      unfold force_close at h
      rw [hpos, hlast] at h
      simp at h

/-! ## Fold max / min facts (for pandas `.max()` / `.min()`) -/

lemma foldl_max_init (a : ℚ) (l : List ℚ) : a ≤ l.foldl max a := by
  induction l generalizing a with
  | nil => exact le_refl a
  | cons b l ih => exact le_trans (le_max_left a b) (ih (max a b))

lemma foldl_max_of_mem (l : List ℚ) (a x : ℚ) (hx : x ∈ l) : x ≤ l.foldl max a := by
  induction l generalizing a with
  | nil => simp at hx
  | cons b l ih =>
    rcases List.mem_cons.mp hx with h | h
    · subst h
      exact le_trans (le_max_right a x) (foldl_max_init (max a x) l)
    · exact ih (max a b) h

lemma foldl_max_cases (l : List ℚ) (a : ℚ) : l.foldl max a = a ∨ l.foldl max a ∈ l := by
  induction l generalizing a with
  | nil => exact Or.inl rfl
  | cons b l ih =>
    rcases ih (max a b) with h | h
    · rcases max_choice a b with hm | hm
      · left; rw [List.foldl_cons, h]; exact hm
      · right; rw [List.foldl_cons, h, hm]; exact List.mem_cons_self b l
    · right; rw [List.foldl_cons]; exact List.mem_cons_of_mem b h

lemma le_series_max (l : List ℚ) (x : ℚ) (hx : x ∈ l) : x ≤ series_max l := by
  cases l with
  | nil => simp at hx
  | cons b l =>
    rcases List.mem_cons.mp hx with h | h
    · subst h; exact foldl_max_init x l
    · exact foldl_max_of_mem l b x h

lemma series_max_mem (l : List ℚ) (h : l ≠ []) : series_max l ∈ l := by
  cases l with
  | nil => exact absurd rfl h
  | cons b l =>
    rcases foldl_max_cases l b with hc | hc
    · rw [show series_max (b :: l) = l.foldl max b from rfl, hc]
      exact List.mem_cons_self b l
    · exact List.mem_cons_of_mem b hc

lemma foldl_min_init (a : ℚ) (l : List ℚ) : l.foldl min a ≤ a := by
  induction l generalizing a with
  | nil => exact le_refl a
  | cons b l ih => exact le_trans (ih (min a b)) (min_le_left a b)

lemma foldl_min_of_mem (l : List ℚ) (a x : ℚ) (hx : x ∈ l) : l.foldl min a ≤ x := by
  induction l generalizing a with
  | nil => simp at hx
  | cons b l ih =>
    rcases List.mem_cons.mp hx with h | h
    · subst h
      exact le_trans (foldl_min_init (min a x) l) (min_le_right a x)
    · exact ih (min a b) h

lemma foldl_min_cases (l : List ℚ) (a : ℚ) : l.foldl min a = a ∨ l.foldl min a ∈ l := by
  induction l generalizing a with
  | nil => exact Or.inl rfl
  | cons b l ih =>
    rcases ih (min a b) with h | h
    · rcases min_choice a b with hm | hm
      · left; rw [List.foldl_cons, h]; exact hm
      · right; rw [List.foldl_cons, h, hm]; exact List.mem_cons_self b l
    · right; rw [List.foldl_cons]; exact List.mem_cons_of_mem b h

lemma series_min_le (l : List ℚ) (x : ℚ) (hx : x ∈ l) : series_min l ≤ x := by
  cases l with
  | nil => simp at hx
  | cons b l =>
    rcases List.mem_cons.mp hx with h | h
    · subst h; exact foldl_min_init x l
    · exact foldl_min_of_mem l b x h

lemma series_min_mem (l : List ℚ) (h : l ≠ []) : series_min l ∈ l := by
  cases l with
  | nil => exact absurd rfl h
  | cons b l =>
    rcases foldl_min_cases l b with hc | hc
    · rw [show series_min (b :: l) = l.foldl min b from rfl, hc]
      exact List.mem_cons_self b l
    · exact List.mem_cons_of_mem b hc

/-! ## Claim theorems -/

/-- C1: on a bar with an open position at most one exit fires, checked in the
strict priority order liquidation (intrabar low for a long / high for a short
touching the liquidation price), then stop-loss, then take-profit; a
liquidation trade has `pnl = -margin_used` and returns nothing to cash, while
a stop-loss / take-profit trade has `pnl = (exit - entry) * quantity`
(sign-flipped for short) and credits `margin_used + pnl` back to cash. -/
theorem c1_exit_priority (s : EngineState) (b : Bar) (p : Position)
    (hp : s.position = some p) :
    (check_exit s b).trades.length ≤ s.trades.length + 1 ∧
    (p.side = Side.long →
      ((b.lo ≤ liquidation_price p →
        check_exit s b =
          { s with position := none
                   trades := s.trades ++
                     [⟨p.entry_time, b.time, Side.long, p.entry_price, liquidation_price p,
                       -p.margin_used, ExitReason.liquidation, p.actual_leverage, LEVERAGE,
                       p.margin_used, p.notional_value,
                       calculate_maintenance_margin_rate p.notional_value⟩] }) ∧
       (¬ b.lo ≤ liquidation_price p → b.lo ≤ p.stop_loss →
        check_exit s b =
          { s with capital := s.capital + p.margin_used +
                     (p.stop_loss - p.entry_price) * p.position_size
                   position := none
                   trades := s.trades ++
                     [⟨p.entry_time, b.time, Side.long, p.entry_price, p.stop_loss,
                       (p.stop_loss - p.entry_price) * p.position_size, ExitReason.stop_loss,
                       p.actual_leverage, LEVERAGE, p.margin_used, p.notional_value,
                       calculate_maintenance_margin_rate p.notional_value⟩] }) ∧
       (¬ b.lo ≤ liquidation_price p → ¬ b.lo ≤ p.stop_loss → b.hi ≥ p.take_profit →
        check_exit s b =
          { s with capital := s.capital + p.margin_used +
                     (p.take_profit - p.entry_price) * p.position_size
                   position := none
                   trades := s.trades ++
                     [⟨p.entry_time, b.time, Side.long, p.entry_price, p.take_profit,
                       (p.take_profit - p.entry_price) * p.position_size,
                       ExitReason.take_profit, p.actual_leverage, LEVERAGE, p.margin_used,
                       p.notional_value,
                       calculate_maintenance_margin_rate p.notional_value⟩] }) ∧
       (¬ b.lo ≤ liquidation_price p → ¬ b.lo ≤ p.stop_loss → ¬ b.hi ≥ p.take_profit →
        check_exit s b = s))) ∧
    (p.side = Side.short →
      ((b.hi ≥ liquidation_price p →
        check_exit s b =
          { s with position := none
                   trades := s.trades ++
                     [⟨p.entry_time, b.time, Side.short, p.entry_price, liquidation_price p,
                       -p.margin_used, ExitReason.liquidation, p.actual_leverage, LEVERAGE,
                       p.margin_used, p.notional_value,
                       calculate_maintenance_margin_rate p.notional_value⟩] }) ∧
       (¬ b.hi ≥ liquidation_price p → b.hi ≥ p.stop_loss →
        check_exit s b =
          { s with capital := s.capital + p.margin_used +
                     (p.entry_price - p.stop_loss) * p.position_size
                   position := none
                   trades := s.trades ++
                     [⟨p.entry_time, b.time, Side.short, p.entry_price, p.stop_loss,
                       (p.entry_price - p.stop_loss) * p.position_size, ExitReason.stop_loss,
                       p.actual_leverage, LEVERAGE, p.margin_used, p.notional_value,
                       calculate_maintenance_margin_rate p.notional_value⟩] }) ∧
       (¬ b.hi ≥ liquidation_price p → ¬ b.hi ≥ p.stop_loss → b.lo ≤ p.take_profit →
        check_exit s b =
          { s with capital := s.capital + p.margin_used +
                     (p.entry_price - p.take_profit) * p.position_size
                   position := none
                   trades := s.trades ++
                     [⟨p.entry_time, b.time, Side.short, p.entry_price, p.take_profit,
                       (p.entry_price - p.take_profit) * p.position_size,
                       ExitReason.take_profit, p.actual_leverage, LEVERAGE, p.margin_used,
                       p.notional_value,
                       calculate_maintenance_margin_rate p.notional_value⟩] }) ∧
       (¬ b.hi ≥ liquidation_price p → ¬ b.hi ≥ p.stop_loss → ¬ b.lo ≤ p.take_profit →
        check_exit s b = s))) := by
  refine ⟨?_, ?_, ?_⟩
  · rcases check_exit_shape s b p hp with h | h
    · rw [h]
      omega
    · obtain ⟨_, _, _, tr, htr, _⟩ := h
      rw [htr]
      simp
  · intro hside
    have hc := check_exit_long s b p hp hside
    refine ⟨fun h1 => ?_, fun h1 h2 => ?_, fun h1 h2 h3 => ?_, fun h1 h2 h3 => ?_⟩
    · rw [hc, if_pos h1]
    · rw [hc, if_neg h1, if_pos h2]
    · rw [hc, if_neg h1, if_neg h2, if_pos h3]
    · rw [hc, if_neg h1, if_neg h2, if_neg h3]
  · intro hside
    have hc := check_exit_short s b p hp hside
    refine ⟨fun h1 => ?_, fun h1 h2 => ?_, fun h1 h2 h3 => ?_, fun h1 h2 h3 => ?_⟩
    · rw [hc, if_pos h1]
    · rw [hc, if_neg h1, if_pos h2]
    · rw [hc, if_neg h1, if_neg h2, if_pos h3]
    · rw [hc, if_neg h1, if_neg h2, if_neg h3]

/-- C1 witness: a concrete bar whose low (98) touches the liquidation price
(98.008) of a long position with 500 margin produces exactly the liquidation
trade with `pnl = -500` and unchanged cash. -/
theorem c1_exit_priority_witness :
    check_exit stateW barLiq =
      { stateW with position := none
                    trades := stateW.trades ++
                      [⟨posW.entry_time, barLiq.time, Side.long, posW.entry_price,
                        liquidation_price posW, -posW.margin_used, ExitReason.liquidation,
                        posW.actual_leverage, LEVERAGE, posW.margin_used, posW.notional_value,
                        calculate_maintenance_margin_rate posW.notional_value⟩] } :=
  ((c1_exit_priority stateW barLiq posW (by decide)).2.1 (by decide)).1 (by decide)

/-- C4: `calculate_position_details` returns margin = capital × sizeFrac,
actual leverage = min(desired, max leverage of the bracket containing
margin × desired), notional = margin × actual leverage, quantity =
notional / entryPrice; the maintenance-margin rate is re-looked-up at the
actual notional; `leverage_limited` holds exactly when the leverage was
capped, hence a desired leverage within the bracket cap passes through
unchanged with `leverage_limited = false`. -/
theorem c4_compute_position (capital sizeFrac : ℚ) (desired_leverage : ℕ)
    (entry_price : ℚ) (d : PositionDetails)
    (hd : d = calculate_position_details capital sizeFrac desired_leverage entry_price)
    (hprice : entry_price ≠ 0) :
    d.margin_used = capital * sizeFrac ∧
    d.actual_leverage = min desired_leverage
      (get_leverage_bracket (capital * sizeFrac * (desired_leverage : ℚ))).maxLeverage ∧
    d.actual_notional = capital * sizeFrac * (d.actual_leverage : ℚ) ∧
    d.position_quantity = d.actual_notional / entry_price ∧
    d.maintenance_margin_rate = (get_leverage_bracket d.actual_notional).maintenanceMarginRate ∧
    (d.leverage_limited = true ↔ d.actual_leverage < desired_leverage) ∧
    (desired_leverage ≤
        (get_leverage_bracket (capital * sizeFrac * (desired_leverage : ℚ))).maxLeverage →
      d.actual_leverage = desired_leverage ∧ d.leverage_limited = false) := by
  subst hd
  refine ⟨rfl, rfl, rfl, rfl, rfl, by simp [calculate_position_details], fun hle => ?_⟩
  constructor
  · show calculate_optimal_leverage desired_leverage (capital * sizeFrac * (desired_leverage : ℚ)) =
      desired_leverage
    unfold calculate_optimal_leverage calculate_max_leverage
    omega
  · show decide (calculate_optimal_leverage desired_leverage
        (capital * sizeFrac * (desired_leverage : ℚ)) < desired_leverage) = false
    unfold calculate_optimal_leverage calculate_max_leverage
    simp
    omega

/-- C4 witness: capital 10000, fraction 1/20, desired leverage 50, entry 100:
margin 500, bracket cap 125 so leverage is uncapped at 50, notional 25000,
quantity 250, maintenance rate 0.4%, not leverage-limited. -/
theorem c4_compute_position_witness :
    (calculate_position_details 10000 (1/20) 50 100).margin_used = 10000 * (1/20) ∧
    (calculate_position_details 10000 (1/20) 50 100).actual_leverage = 50 ∧
    (calculate_position_details 10000 (1/20) 50 100).actual_notional = 25000 ∧
    (calculate_position_details 10000 (1/20) 50 100).position_quantity = 250 ∧
    (calculate_position_details 10000 (1/20) 50 100).maintenance_margin_rate = 1/250 ∧
    (calculate_position_details 10000 (1/20) 50 100).leverage_limited = false := by
  have h := c4_compute_position 10000 (1/20) 50 100 _ rfl (by decide)
  refine ⟨h.1, ?_, ?_, ?_, ?_, (h.2.2.2.2.2.2 (by decide)).2⟩
  · exact (h.2.2.2.2.2.2 (by decide)).1
  · decide
  · decide
  · decide

/-- C6: the equity point appended for a simulated bar has
`equity = cash + margin_used + unrealized pnl at the bar close` when a
position is open and `equity = cash` when flat (relative to the state the
equity is computed from), one point is appended per bar, and a full run
produces exactly one equity point per trading bar. -/
theorem c6_equity_reconciliation :
    (∀ (a1 : List Row1h) (a4 : List Row4h) (s : EngineState) (b : Bar),
      (step_bar a1 a4 s b).equity_curve = s.equity_curve ++ [bar_equity_point s b]) ∧
    (∀ (s : EngineState) (b : Bar),
      (bar_equity_point s b).equity =
        match s.position with
        | none => s.capital
        | some p => s.capital + p.margin_used + unrealized p b.cl) ∧
    (∀ (a1 : List Row1h) (a4 : List Row4h) (bars : List Bar) (c : ℚ),
      (execute_backtest bars a1 a4 c).equity_curve.length = bars.length) := by
  refine ⟨step_curve_append, fun s b => ?_, fun a1 a4 bars c => ?_⟩
  · cases hp : s.position <;> simp [bar_equity_point, hp]
  · unfold execute_backtest
    rw [force_close_curve, run_from_curve_length]
    simp [init_state]

/-- C2: a pending signal recorded after processing bar `i` is filled while
processing bar `i+1`, and the Position it creates carries bar `i+1`'s
timestamp as `entry_time` and bar `i+1`'s OPEN price as `entry_price` (never
the signal bar close); the position either survives the bar or is closed on
it, leaving a trade with the same entry fields. -/
theorem c2_one_bar_fill_delay (a1 : List Row1h) (a4 : List Row4h) (c : ℚ)
    (bars : List Bar) (i : ℕ) (sig : PendingSignal) (hi : i + 1 < bars.length)
    (hasc : ∀ j k : Fin bars.length, (j : ℕ) ≤ (k : ℕ) →
      (bars.get j).time ≤ (bars.get k).time)
    (hpend : (run_from a1 a4 (init_state c) (bars.take (i+1))).pending = some sig) :
    ∃ p : Position,
      p.entry_time = (bars.get ⟨i+1, hi⟩).time ∧
      p.entry_price = (bars.get ⟨i+1, hi⟩).op ∧
      ((run_from a1 a4 (init_state c) (bars.take (i+2))).position = some p ∨
        ∃ tr, tr ∈ (run_from a1 a4 (init_state c) (bars.take (i+2))).trades ∧
          tr.entry_time = (bars.get ⟨i+1, hi⟩).time ∧
          tr.entry_price = (bars.get ⟨i+1, hi⟩).op) := by
  obtain ⟨hflat, hwarm0, htmem⟩ := (run_inv a1 a4 c (bars.take (i+1))).1 sig hpend
  obtain ⟨b', hb', hbt⟩ := htmem
  obtain ⟨j, hj, hjn, hget⟩ := mem_take_get bars (i+1) b' hb'
  have hle : sig.time ≤ (bars.get ⟨i+1, hi⟩).time := by
    rw [← hbt, ← hget]
    exact hasc ⟨j, hj⟩ ⟨i+1, hi⟩ (show j ≤ i+1 by omega)
  have hw : warm_ok a1 a4 (bars.get ⟨i+1, hi⟩).time = true := warm_ok_mono a1 a4 hle hwarm0
  have hstep : run_from a1 a4 (init_state c) (bars.take (i+2)) =
      step_bar a1 a4 (run_from a1 a4 (init_state c) (bars.take (i+1)))
        (bars.get ⟨i+1, hi⟩) :=
    run_from_take_succ a1 a4 (init_state c) bars (i+1) hi
  rw [hstep, step_warm_true a1 a4 _ _ hw]
  obtain ⟨hc1, hpos1, hpend1, ht1, _⟩ :=
    record_equity_fields (run_from a1 a4 (init_state c) (bars.take (i+1)))
      (bars.get ⟨i+1, hi⟩)
  have hfill := fill_pending_fires
    (record_equity (run_from a1 a4 (init_state c) (bars.take (i+1))) (bars.get ⟨i+1, hi⟩))
    (bars.get ⟨i+1, hi⟩) sig (by rw [hpend1]; exact hpend) (by rw [hpos1]; exact hflat)
  obtain ⟨hPt, hPp⟩ := opened_position_entry
    (record_equity (run_from a1 a4 (init_state c) (bars.take (i+1)))
      (bars.get ⟨i+1, hi⟩)).capital sig (bars.get ⟨i+1, hi⟩)
  refine ⟨_, hPt, hPp, ?_⟩
  rcases check_exit_shape
      (fill_pending
        (record_equity (run_from a1 a4 (init_state c) (bars.take (i+1)))
          (bars.get ⟨i+1, hi⟩)) (bars.get ⟨i+1, hi⟩))
      (bars.get ⟨i+1, hi⟩) _ (by rw [hfill]) with hcase | hcase
  · left
    rw [(scan_fields a1 a4 _ _).2.1, hcase, hfill]
  · right
    obtain ⟨hpos0, _, _, tr, htr, htrT, htrP⟩ := hcase
    refine ⟨tr, ?_, ?_, ?_⟩
    · rw [(scan_fields a1 a4 _ _).2.2.1, htr]
      simp
    · rw [htrT, hPt]
    · rw [htrP, hPp]

/-- C2 witness: in the concrete two-bar run the long signal recorded on the
bar at time 49 is filled on the bar at time 50 at its open price 100. -/
theorem c2_one_bar_fill_delay_witness :
    ∃ p : Position,
      p.entry_time = ([bar0c, bar1c].get ⟨1, by decide⟩).time ∧
      p.entry_price = ([bar0c, bar1c].get ⟨1, by decide⟩).op ∧
      ((run_from a1c a4c (init_state 10000) ([bar0c, bar1c].take 2)).position = some p ∨
        ∃ tr, tr ∈ (run_from a1c a4c (init_state 10000) ([bar0c, bar1c].take 2)).trades ∧
          tr.entry_time = ([bar0c, bar1c].get ⟨1, by decide⟩).time ∧
          tr.entry_price = ([bar0c, bar1c].get ⟨1, by decide⟩).op) :=
  c2_one_bar_fill_delay a1c a4c 10000 [bar0c, bar1c] 0 sigW (by decide) (by decide) (by decide)

/-- C3: the engine never evaluates or acts on a new signal unless it is flat
(no open position and no pending signal); a position can only appear by
consuming the pending signal while flat (so at most one position ever exists);
and a pending signal never survives past the next processed bar (with
strictly increasing timestamps the old signal is gone after bar `i+1`). -/
theorem c3_single_position_discipline :
    (∀ (a1 : List Row1h) (a4 : List Row4h) (s : EngineState) (b : Bar),
      s.position ≠ none ∨ s.pending ≠ none → scan_signal a1 a4 s b = s) ∧
    (∀ (a1 : List Row1h) (a4 : List Row4h) (s : EngineState) (b : Bar) (p : Position),
      (step_bar a1 a4 s b).position = some p →
        s.position = some p ∨ (s.position = none ∧ s.pending ≠ none)) ∧
    (∀ (a1 : List Row1h) (a4 : List Row4h) (c : ℚ) (bars : List Bar) (i : ℕ)
       (sig : PendingSignal) (hi : i + 1 < bars.length),
      (∀ j k : Fin bars.length, (j : ℕ) < (k : ℕ) → (bars.get j).time < (bars.get k).time) →
      (run_from a1 a4 (init_state c) (bars.take (i+1))).pending = some sig →
      (run_from a1 a4 (init_state c) (bars.take (i+2))).pending ≠ some sig) := by
  refine ⟨scan_skip, ?_, ?_⟩
  · intro a1 a4 s b p hp
    by_cases hw : warm_ok a1 a4 b.time = true
    case neg =>
      rw [step_warm_false a1 a4 s b (by simpa using hw),
        (record_equity_fields s b).2.1] at hp
      exact Or.inl hp
    case pos =>
      rw [step_warm_true a1 a4 s b hw, (scan_fields a1 a4 _ _).2.1] at hp
      obtain ⟨_, hpos1, hpend1, _, _⟩ := record_equity_fields s b
      cases hqs : s.pending with
      | some sig =>
        cases hps : s.position with
        | none => exact Or.inr ⟨rfl, by simp⟩
        | some q =>
          have hstuck := fill_pending_stuck (record_equity s b) b
            (Or.inr (by rw [hpos1, hps]; simp))
          rw [hstuck] at hp
          rcases check_exit_shape (record_equity s b) b q (by rw [hpos1]; exact hps)
            with hcase | hcase
          · rw [hcase, hpos1, hps] at hp
            exact Or.inl hp
          · rw [hcase.1] at hp
            simp at hp
      | none =>
        have hstuck := fill_pending_stuck (record_equity s b) b
          (Or.inl (by rw [hpend1]; exact hqs))
        rw [hstuck] at hp
        cases hps : s.position with
        | none =>
          rw [check_exit_flat (record_equity s b) b (by rw [hpos1]; exact hps), hpos1, hps] at hp
          simp at hp
        | some q =>
          rcases check_exit_shape (record_equity s b) b q (by rw [hpos1]; exact hps)
            with hcase | hcase
          · rw [hcase, hpos1, hps] at hp
            exact Or.inl hp
          · rw [hcase.1] at hp
            simp at hp
  · intro a1 a4 c bars i sig hi hasc hpend
    obtain ⟨hflat, hwarm0, htmem⟩ := (run_inv a1 a4 c (bars.take (i+1))).1 sig hpend
    obtain ⟨b', hb', hbt⟩ := htmem
    obtain ⟨j, hj, hjn, hget⟩ := mem_take_get bars (i+1) b' hb'
    have hlt : sig.time < (bars.get ⟨i+1, hi⟩).time := by
      rw [← hbt, ← hget]
      exact hasc ⟨j, hj⟩ ⟨i+1, hi⟩ (show j < i+1 by omega)
    have hw : warm_ok a1 a4 (bars.get ⟨i+1, hi⟩).time = true :=
      warm_ok_mono a1 a4 (le_of_lt hlt) hwarm0
    rw [run_from_take_succ a1 a4 (init_state c) bars (i+1) hi,
      step_warm_true a1 a4 _ _ hw]
    obtain ⟨_, hpos1, hpend1, _, _⟩ :=
      record_equity_fields (run_from a1 a4 (init_state c) (bars.take (i+1)))
        (bars.get ⟨i+1, hi⟩)
    have hfill := fill_pending_fires
      (record_equity (run_from a1 a4 (init_state c) (bars.take (i+1)))
        (bars.get ⟨i+1, hi⟩))
      (bars.get ⟨i+1, hi⟩) sig (by rw [hpend1]; exact hpend) (by rw [hpos1]; exact hflat)
    have hpendE : (check_exit
        (fill_pending
          (record_equity (run_from a1 a4 (init_state c) (bars.take (i+1)))
            (bars.get ⟨i+1, hi⟩)) (bars.get ⟨i+1, hi⟩)) (bars.get ⟨i+1, hi⟩)).pending =
        none := by
      rw [(check_exit_keeps _ _).1, hfill]
    rcases scan_pending_cases a1 a4
        (check_exit
          (fill_pending
            (record_equity (run_from a1 a4 (init_state c) (bars.take (i+1)))
              (bars.get ⟨i+1, hi⟩)) (bars.get ⟨i+1, hi⟩)) (bars.get ⟨i+1, hi⟩))
        (bars.get ⟨i+1, hi⟩) with hcase | hcase
    · rw [hcase, hpendE]
      simp
    · obtain ⟨sig', hps', htime, _, _⟩ := hcase
      rw [hps']
      intro heq
      have hss : sig' = sig := Option.some.inj heq
      rw [hss] at htime
      rw [htime] at hlt
      exact lt_irrefl _ hlt

/-- C3 witness: scanning is a no-op on a state with an open position, and in
the concrete two-bar run the signal recorded on the first bar is no longer
pending after the second bar (it was consumed by the fill). -/
theorem c3_single_position_discipline_witness :
    scan_signal a1c a4c stateW bar1c = stateW ∧
    (run_from a1c a4c (init_state 10000) ([bar0c, bar1c].take 2)).pending ≠ some sigW :=
  ⟨c3_single_position_discipline.1 a1c a4c stateW bar1c (Or.inl (by decide)),
   c3_single_position_discipline.2.2 a1c a4c 10000 [bar0c, bar1c] 0 sigW (by decide)
     (by decide) (by decide)⟩

/-- C5 counterexample: on the 1h histogram `[-1, -1, -1, -1, 0, 2]` with a
positive 4h histogram the claimed condition holds (the latest value is
positive, the previous is non-positive, and the run of strictly negative
values walking backward from the third-latest is 4 ≥ MIN_CONSECUTIVE_BARS),
yet the analyzer does NOT fire: its walk starts at the second-latest value,
which is 0, so its run count is 0. -/
theorem c5_counterexample :
    spec_long_fires 4 d4x d1x = true ∧
    (analyze_long_signal 4 d4x d1x).signal = false := by decide

/-- C5 amended: the analyzer fires iff enough history is available, the
latest fast histogram is strictly positive, the previous one non-positive,
the run of strictly negative values walking backward FROM THE SECOND-LATEST
value (capped at 18 values, `range(2, min(len, 20))`) is at least the
threshold, and the slow histogram is strictly positive; with insufficient
history it returns `fired = false` with an insufficient-data diagnostic, not
an error; on firing its `atr` is the latest fast-timeframe ATR; symmetric
with all comparisons inverted for short. -/
theorem c5_amended_signal_condition (minBars : ℕ) (data_4h : List Row4h)
    (data_1h : List Row1h) :
    ((analyze_long_signal minBars data_4h data_1h).signal = true ↔
      (minBars + 2 ≤ data_1h.length ∧
       0 < ilocNeg (data_1h.map Row1h.hist) 1 ∧
       ilocNeg (data_1h.map Row1h.hist) 2 ≤ 0 ∧
       minBars ≤ ((((data_1h.map Row1h.hist).reverse.drop 1).take
         (min data_1h.length 20 - 2)).takeWhile (fun x => decide (x < 0))).length ∧
       0 < ilocNeg (data_4h.map Row4h.hist) 1)) ∧
    (data_1h.length < minBars + 2 →
      analyze_long_signal minBars data_4h data_1h =
        ⟨false, none, SigDiag.insufficient_data⟩) ∧
    ((analyze_long_signal minBars data_4h data_1h).signal = true →
      (analyze_long_signal minBars data_4h data_1h).atr =
        some (ilocNeg (data_1h.map Row1h.atr) 1)) ∧
    ((analyze_short_signal minBars data_4h data_1h).signal = true ↔
      (minBars + 2 ≤ data_1h.length ∧
       ilocNeg (data_1h.map Row1h.hist) 1 < 0 ∧
       0 ≤ ilocNeg (data_1h.map Row1h.hist) 2 ∧
       minBars ≤ ((((data_1h.map Row1h.hist).reverse.drop 1).take
         (min data_1h.length 20 - 2)).takeWhile (fun x => decide (x > 0))).length ∧
       ilocNeg (data_4h.map Row4h.hist) 1 < 0)) := by
  refine ⟨?_, ?_, ?_, ?_⟩
  · simp only [analyze_long_signal]
    split_ifs with h1 h2 h3 h4
    all_goals
      first
      | (refine iff_of_true (by simp) ?_
         exact ⟨by omega, h2.1, h2.2, h3, h4⟩)
      | (refine iff_of_false (by simp) ?_
         rintro ⟨hc1, hA, hB, hrun, hslow⟩
         first
         | exact absurd hc1 (by omega)
         | exact h2 ⟨hA, hB⟩
         | exact h3 hrun
         | exact h4 hslow)
  · intro h
    simp only [analyze_long_signal, if_pos h]
  · simp only [analyze_long_signal]
    split_ifs with h1 h2 h3 h4 <;> intro hh <;> first
      | rfl
      | exact absurd hh (by simp)
  · simp only [analyze_short_signal]
    split_ifs with h1 h2 h3 h4
    all_goals
      first
      | (refine iff_of_true (by simp) ?_
         exact ⟨by omega, h2.1, h2.2, h3, h4⟩)
      | (refine iff_of_false (by simp) ?_
         rintro ⟨hc1, hA, hB, hrun, hslow⟩
         first
         | exact absurd hc1 (by omega)
         | exact h2 ⟨hA, hB⟩
         | exact h3 hrun
         | exact h4 hslow)

/-- C5 witness: with a single-row 1h series (fewer than
MIN_CONSECUTIVE_BARS + 2 = 6 bars) the analyzer returns no signal with the
insufficient-data diagnostic. -/
theorem c5_amended_signal_condition_witness :
    analyze_long_signal 4 d4x d1s = ⟨false, none, SigDiag.insufficient_data⟩ :=
  (c5_amended_signal_condition 4 d4x d1s).2.1 (by decide)

/-- C7 counterexample: in a concrete run where the position is filled on the
second bar (open 100, close 110), the equity point recorded for that bar is
10000 — the flat pre-bar state — while cash + margin + unrealized pnl of the
post-bar state is 12500; the recorded point does NOT reflect the state after
the bar fill and exit processing, because the engine records equity FIRST. -/
theorem c7_counterexample :
    ((run_from a1c a4c (init_state 10000) [bar0c, bar1c]).equity_curve.getD 1
      ⟨0, 0, 0, none, 0⟩).equity = 10000 ∧
    (run_from a1c a4c (init_state 10000) [bar0c, bar1c]).position.map
      (fun p => (run_from a1c a4c (init_state 10000) [bar0c, bar1c]).capital +
        p.margin_used + unrealized p bar1c.cl) = some 12500 ∧
    (10000 : ℚ) ≠ 12500 := by decide

/-- C7 amended: on every simulated bar the engine FIRST records the equity
point, computed from the state carried into the bar (using the bar close
for unrealized pnl), and only then — when the warm-up check passes — fills
the pending signal at the bar open, checks exits, and scans for a new
signal, in that order; none of those three later steps touches the equity
curve.  The recorded point therefore reflects the position state BEFORE, not
after, the bar fill and exit processing. -/
theorem c7_amended_processing_order (a1 : List Row1h) (a4 : List Row4h)
    (s : EngineState) (b : Bar) :
    ((step_bar a1 a4 s b).equity_curve = s.equity_curve ++ [bar_equity_point s b]) ∧
    (warm_ok a1 a4 b.time = true →
      step_bar a1 a4 s b =
        scan_signal a1 a4 (check_exit (fill_pending (record_equity s b) b) b) b) ∧
    (warm_ok a1 a4 b.time = false → step_bar a1 a4 s b = record_equity s b) ∧
    ((fill_pending s b).equity_curve = s.equity_curve) ∧
    ((check_exit s b).equity_curve = s.equity_curve) ∧
    ((scan_signal a1 a4 s b).equity_curve = s.equity_curve) :=
  ⟨step_curve_append a1 a4 s b, step_warm_true a1 a4 s b, step_warm_false a1 a4 s b,
   (fill_pending_keeps s b).2, (check_exit_keeps s b).2, (scan_fields a1 a4 s b).2.2.2⟩

/-- C7 witness: on the concrete fill bar (warm-up passes) the step is exactly
record-equity, then fill, then exit check, then scan; with empty analysis
data (warm-up fails) it is record-equity alone. -/
theorem c7_amended_processing_order_witness :
    step_bar a1c a4c statePend bar1c =
      scan_signal a1c a4c
        (check_exit (fill_pending (record_equity statePend bar1c) bar1c) bar1c) bar1c ∧
    step_bar [] [] statePend bar1c = record_equity statePend bar1c :=
  ⟨(c7_amended_processing_order a1c a4c statePend bar1c).2.1 (by decide),
   (c7_amended_processing_order [] [] statePend bar1c).2.2.1 (by decide)⟩

/-- C8 counterexample: on a bar whose warm-up check fails (empty analysis
history), a pending signal is NOT filled (it stays pending, no position is
opened) and an open long position whose stop-loss (85) is pierced by the
bar low (84) is NOT exited — the `continue` skips fill and exit processing
too, not only signal evaluation. -/
theorem c8_counterexample :
    (step_bar [] [] statePend ⟨5, 100, 100, 100, 100⟩).pending = some sigW ∧
    (step_bar [] [] statePend ⟨5, 100, 100, 100, 100⟩).position = none ∧
    (step_bar [] [] stateW ⟨5, 84, 84, 84, 84⟩).position = some posW := by decide

/-- C8 amended: on a bar with insufficient warm-up history the engine skips
the ENTIRE fill / exit / scan processing — the bar is not an error, the
equity point is still recorded and the run continues; however, in any run
started flat over bars with non-decreasing timestamps, a pending signal or an
open position can only be held on a bar whose warm-up check passes (the check
is monotone in time and both are created after a passed check), so the skip
never actually drops a fill or an exit. -/
theorem c8_amended_warmup_skip :
    (∀ (a1 : List Row1h) (a4 : List Row4h) (s : EngineState) (b : Bar),
      warm_ok a1 a4 b.time = false → step_bar a1 a4 s b = record_equity s b) ∧
    (∀ (a1 : List Row1h) (a4 : List Row4h) (c : ℚ) (bars : List Bar) (i : ℕ)
       (hi : i < bars.length),
      (∀ j k : Fin bars.length, (j : ℕ) ≤ (k : ℕ) →
        (bars.get j).time ≤ (bars.get k).time) →
      ((run_from a1 a4 (init_state c) (bars.take i)).position ≠ none ∨
        (run_from a1 a4 (init_state c) (bars.take i)).pending ≠ none) →
      warm_ok a1 a4 (bars.get ⟨i, hi⟩).time = true) := by
  refine ⟨step_warm_false, ?_⟩
  intro a1 a4 c bars i hi hasc hne
  rcases hne with hne | hne
  · obtain ⟨p, hp⟩ := Option.ne_none_iff_exists'.mp hne
    obtain ⟨hwarm0, htmem⟩ := (run_inv a1 a4 c (bars.take i)).2 p hp
    obtain ⟨b', hb', hbt⟩ := htmem
    obtain ⟨j, hj, hjn, hget⟩ := mem_take_get bars i b' hb'
    refine warm_ok_mono a1 a4 ?_ hwarm0
    rw [← hbt, ← hget]
    exact hasc ⟨j, hj⟩ ⟨i, hi⟩ (show j ≤ i by omega)
  · obtain ⟨sig, hp⟩ := Option.ne_none_iff_exists'.mp hne
    obtain ⟨_, hwarm0, htmem⟩ := (run_inv a1 a4 c (bars.take i)).1 sig hp
    obtain ⟨b', hb', hbt⟩ := htmem
    obtain ⟨j, hj, hjn, hget⟩ := mem_take_get bars i b' hb'
    refine warm_ok_mono a1 a4 ?_ hwarm0
    rw [← hbt, ← hget]
    exact hasc ⟨j, hj⟩ ⟨i, hi⟩ (show j ≤ i by omega)

/-- C8 witness: a warm-up failure reduces the step to equity recording alone,
and in the concrete run the bar following the signal bar (where a signal is
pending) passes the warm-up check. -/
theorem c8_amended_warmup_skip_witness :
    step_bar [] [] statePend bar1c = record_equity statePend bar1c ∧
    warm_ok a1c a4c ([bar0c, bar1c].get ⟨1, by decide⟩).time = true :=
  ⟨c8_amended_warmup_skip.1 [] [] statePend bar1c (by decide),
   c8_amended_warmup_skip.2 a1c a4c 10000 [bar0c, bar1c] 1 (by decide) (by decide)
     (Or.inr (by decide))⟩

/-- C9 counterexample: for a single winning trade (pnl 1) on a run from
capital 100 to 101, the engine `win_rate` is 100 and its `total_return` is
1 — percentages — not the plain ratios 1 and 1/100 the claim states. -/
theorem c9_counterexample :
    (compute_stats 100 101 [tradeWin]).win_rate = 100 ∧
    (compute_stats 100 101 [tradeWin]).win_rate ≠ ((1 : ℚ) / 1) ∧
    (compute_stats 100 101 [tradeWin]).total_return = 1 ∧
    (compute_stats 100 101 [tradeWin]).total_return ≠ (((101 : ℚ) - 100) / 100) := by
  decide

/-- C9 amended: the statistics are a pure reduction of the trade list with
`totalPnl = Σ pnl`; `winRate = count(pnl > 0) / count(*) × 100` (a
percentage); `avgWin` / `avgLoss` the means of the positive / non-positive
subsets and 0 when empty; `bestTrade` / `worstTrade` the max / min pnl;
`totalReturn = (final − initial) / initial × 100` (a percentage); the profit
factor is computed only when both the win and lose counts are positive; and a
run with zero trades leaves cash untouched and yields all-zero statistics. -/
theorem c9_amended_statistics (initial_capital capital : ℚ) (trades : List Trade) :
    (compute_stats initial_capital capital trades).total_pnl =
      (trades.map Trade.pnl).sum ∧
    (compute_stats initial_capital capital trades).win_rate =
      (if trades.length = 0 then 0 else
        ((trades.countP (fun t => decide (0 < t.pnl)) : ℚ) / (trades.length : ℚ)) * 100) ∧
    (compute_stats initial_capital capital trades).avg_win =
      (if ((trades.map Trade.pnl).filter (fun x => decide (0 < x))).isEmpty then 0
       else ((trades.map Trade.pnl).filter (fun x => decide (0 < x))).sum /
         ((((trades.map Trade.pnl).filter (fun x => decide (0 < x))).length : ℚ))) ∧
    (compute_stats initial_capital capital trades).avg_loss =
      (if ((trades.map Trade.pnl).filter (fun x => decide (x ≤ 0))).isEmpty then 0
       else ((trades.map Trade.pnl).filter (fun x => decide (x ≤ 0))).sum /
         ((((trades.map Trade.pnl).filter (fun x => decide (x ≤ 0))).length : ℚ))) ∧
    (trades ≠ [] →
      (compute_stats initial_capital capital trades).best_trade ∈ trades.map Trade.pnl ∧
      (compute_stats initial_capital capital trades).worst_trade ∈ trades.map Trade.pnl ∧
      ∀ t ∈ trades,
        t.pnl ≤ (compute_stats initial_capital capital trades).best_trade ∧
        (compute_stats initial_capital capital trades).worst_trade ≤ t.pnl) ∧
    (compute_stats initial_capital capital trades).total_return =
      (capital - initial_capital) / initial_capital * 100 ∧
    (∀ (avg_win avg_loss : ℚ) (win_count lose_count : ℕ),
      profit_factor avg_win avg_loss win_count lose_count = none ↔
        win_count = 0 ∨ lose_count = 0) ∧
    (trades = [] →
      compute_stats initial_capital capital trades =
        ⟨0, 0, 0, 0, 0, 0, (capital - initial_capital) / initial_capital * 100,
          capital, 0⟩) ∧
    (∀ (a1 : List Row1h) (a4 : List Row4h) (c : ℚ) (bars : List Bar),
      (execute_backtest bars a1 a4 c).trades = [] →
      (execute_backtest bars a1 a4 c).capital = c ∧
      compute_stats c (execute_backtest bars a1 a4 c).capital
        (execute_backtest bars a1 a4 c).trades = ⟨0, 0, 0, 0, 0, 0, 0, c, 0⟩) := by
  by_cases ht : trades = []
  case pos =>
    subst ht
    refine ⟨by simp [compute_stats], by simp [compute_stats], by simp [compute_stats],
      by simp [compute_stats], by simp, by simp [compute_stats], ?_, fun _ => rfl, ?_⟩
    · intro aw al wc lc
      unfold profit_factor
      split_ifs with h
      · simp
        omega
      · simp
        omega
    · intro a1 a4 c bars h
      have hcap := no_trades_capital a1 a4 c bars h
      refine ⟨hcap, ?_⟩
      rw [h, hcap]
      simp [compute_stats]
  case neg =>
    have hne : ¬ trades.isEmpty := by simpa [List.isEmpty_iff] using ht
    have hmapne : trades.map Trade.pnl ≠ [] := by simpa using ht
    refine ⟨?_, ?_, ?_, ?_, ?_, ?_, ?_, fun h => absurd h ht, ?_⟩
    · simp [compute_stats, hne]
    · rw [if_neg (by simpa [List.length_eq_zero] using ht)]
      simp only [compute_stats, hne, Bool.false_eq_true, if_false]
      rw [List.countP_eq_length_filter, ← List.countP_eq_length_filter,
        ← List.countP_eq_length_filter, List.countP_map, List.length_map]
      rfl
    · simp only [compute_stats, hne, Bool.false_eq_true, if_false]
    · simp only [compute_stats, hne, Bool.false_eq_true, if_false]
    · intro _
      refine ⟨?_, ?_, ?_⟩
      · simp only [compute_stats, hne, Bool.false_eq_true, if_false]
        exact series_max_mem _ hmapne
      · simp only [compute_stats, hne, Bool.false_eq_true, if_false]
        exact series_min_mem _ hmapne
      · intro t htmem
        constructor
        · simp only [compute_stats, hne, Bool.false_eq_true, if_false]
          exact le_series_max _ _ (List.mem_map_of_mem Trade.pnl htmem)
        · simp only [compute_stats, hne, Bool.false_eq_true, if_false]
          exact series_min_le _ _ (List.mem_map_of_mem Trade.pnl htmem)
    · simp [compute_stats, hne]
    · intro aw al wc lc
      unfold profit_factor
      split_ifs with h
      · simp
        omega
      · simp
        omega
    · intro a1 a4 c bars h
      have hcap := no_trades_capital a1 a4 c bars h
      refine ⟨hcap, ?_⟩
      rw [h, hcap]
      simp [compute_stats]

/-- C9 witness: instantiating the amended statistics for the one-trade list
(best/worst bounds) and for the empty list (all-zero record). -/
theorem c9_amended_statistics_witness :
    ((compute_stats 100 101 [tradeWin]).best_trade ∈ [tradeWin].map Trade.pnl ∧
      (compute_stats 100 101 [tradeWin]).worst_trade ∈ [tradeWin].map Trade.pnl ∧
      ∀ t ∈ [tradeWin],
        t.pnl ≤ (compute_stats 100 101 [tradeWin]).best_trade ∧
        (compute_stats 100 101 [tradeWin]).worst_trade ≤ t.pnl) ∧
    compute_stats 100 100 [] =
      ⟨0, 0, 0, 0, 0, 0, ((100 : ℚ) - 100) / 100 * 100, 100, 0⟩ ∧
    profit_factor 5 (-3) 2 0 = none :=
  ⟨(c9_amended_statistics 100 101 [tradeWin]).2.2.2.2.1 (by decide),
   (c9_amended_statistics 100 100 []).2.2.2.2.2.2.2.1 rfl,
   ((c9_amended_statistics 100 100 []).2.2.2.2.2.2.1 5 (-3) 2 0).mpr (Or.inr rfl)⟩

/-- C10: the spec requires a zero entry price (hence a zero position
quantity) to be guarded before division and treated as skip-this-signal; the
code has no such guard.  Evaluating the engine at a bar with open price 0
while a long signal is pending: `calculate_position_details` still computes
(margin 500, with `actual_notional / entry_price` evaluated at zero divisor —
numpy float64 yields `inf`, the exact model yields 0), the signal is consumed
and a position with `entry_price = 0` is OPENED rather than skipped, and the
subsequent per-bar liquidation computation divides by that quantity
unguarded. -/
theorem c10_unguarded_degenerate_division :
    (calculate_position_details 10000 (1/20) 50 0).margin_used = 500 ∧
    (step_bar a1c a4c statePend barZero).pending = none ∧
    (step_bar a1c a4c statePend barZero).position.map Position.entry_price = some 0 := by
  decide

end MacdBacktest
